import Mathlib

/-!
# wpool: a bounded worker pool

A shallow embedding of `pool.go`, `worker.go` and `task.go`.

* Go `int` and `time.Duration` values are integers; `time.Duration`
  arithmetic wraps at 64 bits (`wrap64`).
* A run-time panic is a value of `Panic`; a function that can panic returns
  `Except Panic _` or an `Outcome`.
* A channel is its capacity and its buffered elements in FIFO order; an
  operation that would block returns `none`.
* A work unit `func()` is a function on the caller's memory `σ`; `none`
  stands for a work unit that does not return.
* Goroutines are interleaved by an explicit schedule (`Sys.step`,
  `Sys.exec`), one atomic action at a time.
-/

namespace Wpool

/-! ## Run-time panics and outcomes -/

/-- Run-time panics of the Go runtime and of `sync.WaitGroup` that the pool can raise. -/
inductive Panic where
  | makechanSize
  | makesliceLen
  | indexOutOfRange
  | nilDereference
  | negativeWaitGroupCounter
  deriving DecidableEq, Repr

/-- Result of running a statement sequence: it returns, it panics (leaving the
world as it was when the panic was raised), or it never returns. -/
inductive Outcome (α : Type) where
  | ok (a : α)
  | panic (p : Panic) (a : α)
  | hang

/-- World left behind by an outcome, when there is one. -/
def Outcome.world {α : Type} : Outcome α → Option α
  | .ok a => some a
  | .panic _ a => some a
  | .hang => none

/-! ## task.go -/

/-- Task of `task.go`: `wg` is a pointer to a `sync.WaitGroup` (`none` is the
nil pointer, `some a` the group at address `a`). -/
structure Task (σ : Type) where
  ID : String
  wg : Option Nat
  doWork : σ → Option σ

/-- History events, recorded for the proofs only. -/
inductive Event (σ : Type) where
  | added (t : Task σ)
  | received (t : Task σ)
  | ran (t : Task σ)
  | signalled (t : Task σ)

/-- Memory of the program outside the pool: the memory the work units act on,
the counter of every wait group, and the history of events. -/
structure World (σ : Type) where
  mem : σ
  wgs : Nat → Int
  trace : List (Event σ)

/-- NewTask of `task.go`; `id` is the string `uuid.New().String()` returns. -/
def NewTask {σ : Type} (id : String) (wg : Option Nat) (work : σ → Option σ) : Task σ :=
  { ID := id, wg := wg, doWork := work }

/-- First statement of `Task.Do`: `t.doWork()`. -/
def Task.runWork {σ : Type} (t : Task σ) (w : World σ) : Option (World σ) :=
  match t.doWork w.mem with
  | none => none
  | some m => some { w with mem := m, trace := w.trace ++ [Event.ran t] }

/-- Second statement of `Task.Do`: `t.wg.Done()`, that is `wg.Add(-1)`. A nil
group is a nil dereference; the counter is decremented and `Add` then panics
when it has become negative. -/
def Task.signal {σ : Type} (t : Task σ) (w : World σ) : Outcome (World σ) :=
  match t.wg with
  | none => .panic .nilDereference w
  | some g =>
    let w1 : World σ :=
      { w with wgs := Function.update w.wgs g (w.wgs g - 1),
               trace := w.trace ++ [Event.signalled t] }
    if w1.wgs g < 0 then .panic .negativeWaitGroupCounter w1 else .ok w1

/-- Task.Do of `task.go`. -/
def Task.Do {σ : Type} (t : Task σ) (w : World σ) : Outcome (World σ) :=
  match t.runWork w with
  | none => .hang
  | some w1 => t.signal w1

/-! ## Channels -/

/-- Go channel: capacity and buffered elements, oldest first. -/
structure Chan (α : Type) where
  cap : Nat
  buf : List α

/-- Send into the buffer; `none` when the buffer is full (the send blocks). -/
def Chan.send {α : Type} (ch : Chan α) (x : α) : Option (Chan α) :=
  if ch.buf.length < ch.cap then some { ch with buf := ch.buf ++ [x] } else none

/-- Receive from the buffer; `none` when the buffer is empty (the receive blocks). -/
def Chan.recv {α : Type} (ch : Chan α) : Option (α × Chan α) :=
  match ch.buf with
  | [] => none
  | x :: rest => some (x, { ch with buf := rest })

/-! ## worker.go -/

/-- Control point of a worker's goroutine. -/
inductive Loop (σ : Type) where
  | unstarted
  | select
  | doWork (t : Task σ)
  | wgDone (t : Task σ)
  | returned

/-- Worker of `worker.go`. `taskBuffer` is always the pool's channel and `quit`
an unbuffered channel of the worker's own, so neither is stored; `loop` is the
goroutine `Start` spawns. -/
structure worker (σ : Type) where
  ID : Int
  loop : Loop σ

/-- Zero value of `worker`, as `make([]worker, n)` fills the slice with. -/
def worker.zero {σ : Type} : worker σ := { ID := 0, loop := .unstarted }

/-- Constructor newWorker of `worker.go`. -/
def newWorker {σ : Type} (id : Int) : worker σ := { ID := id, loop := .unstarted }

/-- Method worker.Start: spawns the goroutine, which begins at the `select`. -/
def worker.Start {σ : Type} (w : worker σ) : worker σ := { w with loop := .select }

/-! ## pool.go -/

def MaxWorkers : Int := 1000

def MaxBufferSize : Int := 1000

/-- WorkerPool of `pool.go`. -/
structure WorkerPool (σ : Type) where
  nWorkers : Int
  bufferSize : Int
  workers : List (worker σ)
  taskBufferedChannel : Chan (Task σ)

/-- Option of `pool.go`. -/
abbrev PoolOption (σ : Type) := WorkerPool σ → WorkerPool σ

def WithNumWorkers {σ : Type} (nWorkers : Int) : PoolOption σ := fun d =>
  { d with nWorkers := if nWorkers > MaxWorkers then MaxWorkers else nWorkers }

def WithBufferSize {σ : Type} (bufferSize : Int) : PoolOption σ := fun d =>
  { d with bufferSize := if bufferSize > MaxBufferSize then MaxBufferSize else bufferSize }

/-- The literal `&WorkerPool{nWorkers: 2, bufferSize: 10}`; the nil slice is the
empty list and the nil channel, never used before `New` replaces it, an empty
channel of capacity 0. -/
def WorkerPool.literal {σ : Type} : WorkerPool σ :=
  { nWorkers := 2, bufferSize := 10, workers := [], taskBufferedChannel := { cap := 0, buf := [] } }

/-- New of `pool.go`. `make(chan Task, n)` and `make([]worker, n)` panic when
`n` is negative. -/
def New {σ : Type} (opts : List (PoolOption σ)) : Except Panic (WorkerPool σ) :=
  let d := opts.foldl (fun d o => o d) WorkerPool.literal
  if d.bufferSize < 0 then .error .makechanSize
  else if d.nWorkers < 0 then .error .makesliceLen
  else .ok { d with taskBufferedChannel := { cap := d.bufferSize.toNat, buf := [] },
                    workers := List.replicate d.nWorkers.toNat worker.zero }

/-- Configuration after the options have been applied, before `New` allocates. -/
def applyOpts {σ : Type} (opts : List (PoolOption σ)) : WorkerPool σ :=
  opts.foldl (fun d o => o d) WorkerPool.literal

/-- Pool that `New` allocates for a configuration. -/
def allocate {σ : Type} (d : WorkerPool σ) : WorkerPool σ :=
  { d with taskBufferedChannel := { cap := d.bufferSize.toNat, buf := [] },
           workers := List.replicate d.nWorkers.toNat worker.zero }

/-- AddTask of `pool.go`: `d.taskBufferedChannel <- task` with no receiver
waiting; `none` when the send blocks. -/
def WorkerPool.AddTask {σ : Type} (d : WorkerPool σ) (task : Task σ) : Option (WorkerPool σ) :=
  match d.taskBufferedChannel.send task with
  | none => none
  | some ch => some { d with taskBufferedChannel := ch }

/-- Loop of `Run`: `k` iterations remain, the loop variable is `i`. The
assignment `d.workers[i] = worker` panics when `i` is out of range. -/
def WorkerPool.runLoop {σ : Type} : Nat → Nat → WorkerPool σ → Except Panic (WorkerPool σ)
  | 0, _, d => .ok d
  | k + 1, i, d =>
    let w : worker σ := (newWorker ((i : Int) + 1)).Start
    if i < d.workers.length then
      WorkerPool.runLoop k (i + 1) { d with workers := d.workers.set i w }
    else .error .indexOutOfRange

/-- Run of `pool.go`: the loop runs for `i = 0, ..., nWorkers - 1`. -/
def WorkerPool.Run {σ : Type} (d : WorkerPool σ) : Except Panic (WorkerPool σ) :=
  WorkerPool.runLoop d.nWorkers.toNat 0 d

/-- Signed 64-bit wrap-around of `time.Duration` (an `int64`) arithmetic. -/
def wrap64 (x : Int) : Int := (x + 2 ^ 63) % 2 ^ 64 - 2 ^ 63

/-- Constant time.Millisecond, in nanoseconds. -/
def Millisecond : Int := 1000000

/-- Constant time.Second, in nanoseconds. -/
def Second : Int := 1000000000

/-- Grace period `timeout` computed at the start of `stop`, in nanoseconds. -/
def stopTimeout (nWorkers : Int) : Int :=
  let timeout := wrap64 (wrap64 nWorkers * (10 * Millisecond))
  if timeout > 3 * Second then 3 * Second else timeout

/-! ## The running system

The caller, the goroutines of the workers and the stop function take turns;
every action below is one atomic step of one of them. -/

/-- How far the caller has got with `Run` and with the stop function it
returns: `stopping i` is inside the loop of `stop` with loop variable `i`
(after the loop, waiting for the deadline, when `i` has reached `nWorkers`). -/
inductive Phase where
  | created
  | running
  | stopping (i : Nat)
  | stopped
  deriving DecidableEq, Repr

/-- State of the program: the pool, the world outside it, the phase, the
`timeout` variable of `stop`, and the panic that ended the process, if any. -/
structure Sys (σ : Type) where
  d : WorkerPool σ
  w : World σ
  phase : Phase
  timeout : Int
  crashed : Option Panic

/-- Atomic steps. `handoff t i` is `AddTask t` on an unbuffered channel,
received at once by worker `i` waiting at its `select`; `recv i` is the task
case of the `select` of worker `i`; `doWork i` and `wgDone i` are the two
statements of `Task.Do` in worker `i`; `quit` is the rendezvous of
`w.quit <- true` in `stop` with the quit case of the `select` of that worker;
`deadline` is `<-deadline.Done()` returning. -/
inductive Action (σ : Type) where
  | Run
  | AddTask (t : Task σ)
  | handoff (t : Task σ) (i : Nat)
  | recv (i : Nat)
  | doWork (i : Nat)
  | wgDone (i : Nat)
  | stop
  | quit
  | deadline

/-- Appends an event to the history. -/
def World.log {σ : Type} (w : World σ) (e : Event σ) : World σ :=
  { w with trace := w.trace ++ [e] }

/-- Moves the goroutine of worker `i` to control point `l`. -/
def WorkerPool.setLoop {σ : Type} (d : WorkerPool σ) (i : Nat) (l : Loop σ) : WorkerPool σ :=
  { d with workers := d.workers.modify (fun wk => { wk with loop := l }) i }

/-- Control point of the goroutine of worker `i`. -/
def WorkerPool.loopAt {σ : Type} (d : WorkerPool σ) (i : Nat) : Option (Loop σ) :=
  (d.workers[i]?).map (fun wk => wk.loop)

/-- One step of the program; `none` when the action cannot be taken in this
state (its thread is blocked or is elsewhere). After a panic the process is
gone and nothing can be taken. -/
def Sys.step {σ : Type} (s : Sys σ) (a : Action σ) : Option (Sys σ) :=
  if s.crashed.isSome then none else
  match a with
  | .Run =>
    match s.phase with
    | .created =>
      match s.d.Run with
      | .ok d1 => some { s with d := d1, phase := .running }
      | .error p => some { s with crashed := some p }
    | _ => none
  | .AddTask t =>
    match s.d.AddTask t with
    | some d1 => some { s with d := d1, w := s.w.log (.added t) }
    | none => none
  | .handoff t i =>
    if s.d.taskBufferedChannel.cap = 0 then
      match s.d.loopAt i with
      | some .select =>
        some { s with d := s.d.setLoop i (.doWork t),
                      w := (s.w.log (.added t)).log (.received t) }
      | _ => none
    else none
  | .recv i =>
    match s.d.loopAt i with
    | some .select =>
      match s.d.taskBufferedChannel.recv with
      | some (t, ch) =>
        some { s with d := { s.d with taskBufferedChannel := ch }.setLoop i (.doWork t),
                      w := s.w.log (.received t) }
      | none => none
    | _ => none
  | .doWork i =>
    match s.d.loopAt i with
    | some (.doWork t) =>
      match t.runWork s.w with
      | some w1 => some { s with d := s.d.setLoop i (.wgDone t), w := w1 }
      | none => none
    | _ => none
  | .wgDone i =>
    match s.d.loopAt i with
    | some (.wgDone t) =>
      match t.signal s.w with
      | .ok w1 => some { s with d := s.d.setLoop i .select, w := w1 }
      | .panic p _ => some { s with crashed := some p }
      | .hang => none
    | _ => none
  | .stop =>
    match s.phase with
    | .running => some { s with phase := .stopping 0, timeout := stopTimeout s.d.nWorkers }
    | _ => none
  | .quit =>
    match s.phase with
    | .stopping i =>
      if (i : Int) < s.d.nWorkers then
        match s.d.loopAt i with
        | none => some { s with crashed := some .indexOutOfRange }
        | some .select => some { s with d := s.d.setLoop i .returned, phase := .stopping (i + 1) }
        | some _ => none
      else none
    | _ => none
  | .deadline =>
    match s.phase with
    | .stopping i => if (i : Int) < s.d.nWorkers then none else some { s with phase := .stopped }
    | _ => none

/-- Runs a schedule, one action after the other. -/
def Sys.exec {σ : Type} : List (Action σ) → Sys σ → Option (Sys σ)
  | [], s => some s
  | a :: rest, s =>
    match s.step a with
    | none => none
    | some s1 => Sys.exec rest s1

/-- Program state with a pool fresh from `New`, memory `m`, wait-group
counters `wgs`, and an empty history. -/
def Sys.init {σ : Type} (d : WorkerPool σ) (m : σ) (wgs : Nat → Int) : Sys σ :=
  { d := d, w := { mem := m, wgs := wgs, trace := [] }, phase := .created,
    timeout := 0, crashed := none }

/-! ### Reading the history -/

/-- Tasks whose `AddTask` has completed, in order. -/
def addedTasks {σ : Type} (tr : List (Event σ)) : List (Task σ) :=
  tr.filterMap (fun e => match e with | .added t => some t | _ => none)

/-- Tasks a worker has taken from the queue, in order. -/
def receivedTasks {σ : Type} (tr : List (Event σ)) : List (Task σ) :=
  tr.filterMap (fun e => match e with | .received t => some t | _ => none)

/-- Tasks whose work unit has run and returned, in order. -/
def ranTasks {σ : Type} (tr : List (Event σ)) : List (Task σ) :=
  tr.filterMap (fun e => match e with | .ran t => some t | _ => none)

/-- Tasks that have signalled their completion group, in order. -/
def signalledTasks {σ : Type} (tr : List (Event σ)) : List (Task σ) :=
  tr.filterMap (fun e => match e with | .signalled t => some t | _ => none)

/-- Whether the event is the completion of an `AddTask`. -/
def Event.isAdded {σ : Type} : Event σ → Bool
  | .added _ => true
  | _ => false

/-- Runs the work units of the tasks one after the other on memory `m`. -/
def runAll {σ : Type} : List (Task σ) → σ → Option σ
  | [], m => some m
  | t :: rest, m =>
    match t.doWork m with
    | none => none
    | some m1 => runAll rest m1

/-- Whether a goroutine exists at this control point and has not returned. -/
def Loop.live {σ : Type} : Loop σ → Bool
  | .select => true
  | .doWork _ => true
  | .wgDone _ => true
  | _ => false

/-- Whether the goroutine has returned. -/
def Loop.isReturned {σ : Type} : Loop σ → Bool
  | .returned => true
  | _ => false

/-- Number of live worker goroutines of the pool. -/
def WorkerPool.liveLoops {σ : Type} (d : WorkerPool σ) : Nat :=
  d.workers.countP (fun wk => wk.loop.live)

/-! ### The steps as a relation -/

/-- The transitions of `Sys.step`, one constructor for each way a step can be
taken; a step that ends in a panic only sets `crashed`. -/
inductive Step {σ : Type} : Sys σ → Sys σ → Prop where
  | run (s : Sys σ) (d1 : WorkerPool σ) (hc : s.crashed = none) (hp : s.phase = .created)
      (hr : s.d.Run = .ok d1) : Step s { s with d := d1, phase := .running }
  | crash (s : Sys σ) (p : Panic) (hc : s.crashed = none) : Step s { s with crashed := some p }
  | addTask (s : Sys σ) (t : Task σ) (d1 : WorkerPool σ) (hc : s.crashed = none)
      (ha : s.d.AddTask t = some d1) : Step s { s with d := d1, w := s.w.log (.added t) }
  | handoff (s : Sys σ) (t : Task σ) (i : Nat) (hc : s.crashed = none)
      (hcap : s.d.taskBufferedChannel.cap = 0) (hl : s.d.loopAt i = some .select) :
      Step s { s with d := s.d.setLoop i (.doWork t),
                      w := (s.w.log (.added t)).log (.received t) }
  | recv (s : Sys σ) (i : Nat) (t : Task σ) (ch : Chan (Task σ)) (hc : s.crashed = none)
      (hl : s.d.loopAt i = some .select) (hr : s.d.taskBufferedChannel.recv = some (t, ch)) :
      Step s { s with d := { s.d with taskBufferedChannel := ch }.setLoop i (.doWork t),
                      w := s.w.log (.received t) }
  | doWork (s : Sys σ) (i : Nat) (t : Task σ) (w1 : World σ) (hc : s.crashed = none)
      (hl : s.d.loopAt i = some (.doWork t)) (hw : t.runWork s.w = some w1) :
      Step s { s with d := s.d.setLoop i (.wgDone t), w := w1 }
  | wgDone (s : Sys σ) (i : Nat) (t : Task σ) (w1 : World σ) (hc : s.crashed = none)
      (hl : s.d.loopAt i = some (.wgDone t)) (hw : t.signal s.w = .ok w1) :
      Step s { s with d := s.d.setLoop i .select, w := w1 }
  | stop (s : Sys σ) (hc : s.crashed = none) (hp : s.phase = .running) :
      Step s { s with phase := .stopping 0, timeout := stopTimeout s.d.nWorkers }
  | quit (s : Sys σ) (i : Nat) (hc : s.crashed = none) (hp : s.phase = .stopping i)
      (hi : (i : Int) < s.d.nWorkers) (hl : s.d.loopAt i = some .select) :
      Step s { s with d := s.d.setLoop i .returned, phase := .stopping (i + 1) }
  | deadline (s : Sys σ) (i : Nat) (hc : s.crashed = none) (hp : s.phase = .stopping i)
      (hi : ¬ (i : Int) < s.d.nWorkers) : Step s { s with phase := .stopped }

/-! ### The life cycle of the workers -/

/-- Whether no goroutine has been started for the worker yet. -/
def Loop.isUnstarted {σ : Type} : Loop σ → Bool
  | .unstarted => true
  | _ => false

/-- Control points worker `j` can be at in each phase: unstarted before `Run`,
live while running, returned once `stop` has passed it. -/
def phaseOk {σ : Type} (ph : Phase) (j : Nat) (l : Loop σ) : Prop :=
  match ph with
  | .created => l.isUnstarted = true
  | .running => l.live = true
  | .stopping i => if j < i then l.isReturned = true else l.live = true
  | .stopped => l.isReturned = true

/-- Invariant of a pool made by `New` with `n0` workers. -/
structure LifecycleInv {σ : Type} (n0 : Int) (s : Sys σ) : Prop where
  nWorkers : s.d.nWorkers = n0
  len : s.d.workers.length = n0.toNat
  loops : ∀ j l, s.d.loopAt j = some l → phaseOk s.phase j l
  bound : ∀ i, s.phase = .stopping i → i ≤ n0.toNat

/-- Every worker has left its loop and `stop` is past its loop over the workers. -/
structure AllStopped {σ : Type} (s : Sys σ) : Prop where
  loops : ∀ j l, s.d.loopAt j = some l → l.isReturned = true
  phase : s.phase = .stopped ∨ ∃ i, s.phase = .stopping i ∧ ¬ (i : Int) < s.d.nWorkers

/-- What can still happen from `s1` on once every worker has stopped: tasks
are added to the queue and to the history, and nothing else moves. -/
structure OnlyAdds {σ : Type} (s1 s : Sys σ) : Prop where
  stopped : AllStopped s
  trace : ∃ more, s.w.trace = s1.w.trace ++ more ∧ ∀ e ∈ more, Event.isAdded e = true
  queue : ∃ more, s.d.taskBufferedChannel.buf = s1.d.taskBufferedChannel.buf ++ more
  wgs : s.w.wgs = s1.w.wgs
  mem : s.w.mem = s1.w.mem

/-! ### Where the tasks are -/

/-- Task a worker has received and whose work unit has not run yet. -/
def Loop.pending {σ : Type} : Loop σ → List (Task σ)
  | .doWork t => [t]
  | _ => []

/-- Task a worker has run and not yet signalled. -/
def Loop.unsignalled {σ : Type} : Loop σ → List (Task σ)
  | .wgDone t => [t]
  | _ => []

/-- Tasks the workers hold, as selected by `f`. -/
def heldBy {σ : Type} (f : Loop σ → List (Task σ)) : List (worker σ) → List (Task σ)
  | [] => []
  | wk :: rest => f wk.loop ++ heldBy f rest

/-- Number of tasks in the list whose completion group is `g`. -/
def countGroup {σ : Type} (g : Nat) (ts : List (Task σ)) : Nat :=
  ts.countP (fun t => decide (t.wg = some g))

/-- Bookkeeping invariant, from memory `m0` and wait-group counters `wgs0`:
every added task is in the queue, held by a worker, or signalled; every task
that ran is signalled or about to be; each counter has gone down by the
number of signals to its group; the memory is the result of the work units
that ran, in the order they ran. -/
structure CountInv {σ : Type} (m0 : σ) (wgs0 : Nat → Int) (s : Sys σ) : Prop where
  added : (addedTasks s.w.trace : Multiset (Task σ)) =
    (s.d.taskBufferedChannel.buf : Multiset (Task σ)) + (heldBy Loop.pending s.d.workers : List _)
      + (heldBy Loop.unsignalled s.d.workers : List _) + (signalledTasks s.w.trace : List _)
  ran : (ranTasks s.w.trace : Multiset (Task σ)) =
    (heldBy Loop.unsignalled s.d.workers : Multiset (Task σ)) + (signalledTasks s.w.trace : List _)
  wgs : ∀ g, s.w.wgs g + (countGroup g (signalledTasks s.w.trace) : Int) = wgs0 g
  mem : runAll (ranTasks s.w.trace) m0 = some s.w.mem

/-! ### Concrete programs

The scenario of `TestDispatcher_RunTask`: tasks that add 5 to a shared
accumulator and signal the wait group at address 0. -/

/-- Task adding 5 to the accumulator, with completion group 0. -/
def add5 : Task Int := NewTask "add5" (some 0) (fun m => some (m + 5))

/-- Task adding 5 to the accumulator, with no completion group. -/
def add5nil : Task Int := NewTask "add5nil" none (fun m => some (m + 5))

/-- Pool `New(WithNumWorkers(n), WithBufferSize(c))`, or the bare literal when `New` panics. -/
def poolOf (n c : Int) : WorkerPool Int :=
  match New [WithNumWorkers n, WithBufferSize c] with
  | .ok d => d
  | .error _ => WorkerPool.literal

/-- Pool with 2 workers: `Run`, then the stop function, which stops both
workers and waits for the deadline. -/
def runStopSchedule : List (Action Int) := [.Run, .stop, .quit, .quit, .deadline]

/-- One worker runs two tasks one after the other (scenario A). -/
def oneWorkerSchedule : List (Action Int) :=
  [.Run, .AddTask add5, .AddTask add5, .recv 0, .doWork 0, .wgDone 0,
   .recv 0, .doWork 0, .wgDone 0]

/-- Two workers take one task each and run them interleaved (scenario B). -/
def twoWorkerSchedule : List (Action Int) :=
  [.Run, .AddTask add5, .AddTask add5, .recv 1, .recv 0, .doWork 0, .doWork 1,
   .wgDone 1, .wgDone 0]

/-- Program state with the pool `poolOf n c`, accumulator 0 and every wait
group at `k` (after `wg.Add(k)`). -/
def sysOf (n c : Int) (k : Int) : Sys Int := Sys.init (poolOf n c) 0 (fun _ => k)

/-- State in which the schedule `acts` leaves `s`, or `s` itself when the
schedule cannot be run. -/
def Sys.after {σ : Type} (acts : List (Action σ)) (s : Sys σ) : Sys σ :=
  (Sys.exec acts s).getD s

/-- World with accumulator 0 and every wait group at `k`. -/
def worldOf (k : Int) : World Int := { mem := 0, wgs := fun _ => k, trace := [] }

end Wpool

namespace Wpool

/-! ## Configuration: `New`, `WithNumWorkers`, `WithBufferSize` -/

theorem New_of_nonneg {σ : Type} (opts : List (PoolOption σ))
    (hb : 0 ≤ (applyOpts opts).bufferSize) (hn : 0 ≤ (applyOpts opts).nWorkers) :
    New opts = .ok (allocate (applyOpts opts)) := by
  have h1 : ¬ ((applyOpts opts).bufferSize < 0) := by omega
  have h2 : ¬ ((applyOpts opts).nWorkers < 0) := by omega
  unfold applyOpts at h1 h2
  simp only [New, if_neg h1, if_neg h2]
  rfl

theorem New_ok_inv {σ : Type} (opts : List (PoolOption σ)) (d : WorkerPool σ)
    (h : New opts = .ok d) :
    0 ≤ d.nWorkers ∧ d.workers = List.replicate d.nWorkers.toNat worker.zero ∧
      d.taskBufferedChannel.buf = [] ∧ 0 ≤ d.bufferSize ∧
      d.taskBufferedChannel.cap = d.bufferSize.toNat := by
  by_cases hb : (applyOpts opts).bufferSize < 0
  · unfold applyOpts at hb
    simp only [New, if_pos hb] at h
    cases h
  · by_cases hn : (applyOpts opts).nWorkers < 0
    · unfold applyOpts at hb hn
      simp only [New, if_neg hb, if_pos hn] at h
      cases h
    · rw [New_of_nonneg opts (by omega) (by omega)] at h
      cases h
      exact ⟨by simpa [allocate] using hn, rfl, rfl, by simpa [allocate] using hb, rfl⟩

theorem clamp_workers (n : Int) : (if n > MaxWorkers then MaxWorkers else n) = min n 1000 := by
  unfold MaxWorkers; split <;> omega

theorem clamp_buffer (c : Int) :
    (if c > MaxBufferSize then MaxBufferSize else c) = min c 1000 := by
  unfold MaxBufferSize; split <;> omega

theorem applyOpts_workers_buffer {σ : Type} (w c : Int) :
    (applyOpts [WithNumWorkers w, WithBufferSize c] : WorkerPool σ)
      = { nWorkers := min w 1000, bufferSize := min c 1000, workers := [],
          taskBufferedChannel := { cap := 0, buf := [] } } := by
  rw [← clamp_workers, ← clamp_buffer]; rfl

theorem applyOpts_workers {σ : Type} (n : Int) :
    (applyOpts [WithNumWorkers n] : WorkerPool σ)
      = { nWorkers := min n 1000, bufferSize := 10, workers := [],
          taskBufferedChannel := { cap := 0, buf := [] } } := by
  rw [← clamp_workers]; rfl

theorem applyOpts_buffer {σ : Type} (c : Int) :
    (applyOpts [WithBufferSize c] : WorkerPool σ)
      = { nWorkers := 2, bufferSize := min c 1000, workers := [],
          taskBufferedChannel := { cap := 0, buf := [] } } := by
  rw [← clamp_buffer]; rfl

/-- C1: for `w ≥ 1` and `c ≥ 0`, `New(WithNumWorkers(w), WithBufferSize(c))`
returns a pool with `nWorkers = min(w, 1000)`, a worker slice of exactly that
many slots, and an empty task queue of capacity `min(c, 1000)`. -/
theorem New_realized_counts {σ : Type} (w c : Int) (hw : 1 ≤ w) (hc : 0 ≤ c) :
    ∃ d : WorkerPool σ, New [WithNumWorkers w, WithBufferSize c] = .ok d ∧
      d.nWorkers = min w 1000 ∧
      (d.workers.length : Int) = min w 1000 ∧
      (d.taskBufferedChannel.cap : Int) = min c 1000 ∧
      d.taskBufferedChannel.buf = [] := by
  refine ⟨allocate (applyOpts [WithNumWorkers w, WithBufferSize c]), ?_, ?_, ?_, ?_, ?_⟩
  · apply New_of_nonneg <;> rw [applyOpts_workers_buffer] <;> simp only <;> omega
  · rw [applyOpts_workers_buffer]; rfl
  · rw [applyOpts_workers_buffer]; simp only [allocate, List.length_replicate]; omega
  · rw [applyOpts_workers_buffer]; simp only [allocate]; omega
  · rfl

/-- Scenario D of C1: `numWorkers = 5000` yields exactly 1000 workers. -/
theorem New_realized_counts_witness :
    (1 : Int) ≤ 5000 ∧ (0 : Int) ≤ 10 ∧
    ∃ d : WorkerPool Unit, New [WithNumWorkers 5000, WithBufferSize 10] = .ok d ∧
      d.nWorkers = min 5000 1000 ∧
      (d.workers.length : Int) = min 5000 1000 ∧
      (d.taskBufferedChannel.cap : Int) = min 10 1000 ∧
      d.taskBufferedChannel.buf = [] :=
  ⟨by decide, by decide, New_realized_counts 5000 10 (by decide) (by decide)⟩

/-- C2, as stated, fails: `New(WithNumWorkers(0))` returns a pool whose worker
count is 0, below the claimed range. -/
theorem WithNumWorkers_zero_not_clamped :
    ∃ d : WorkerPool Unit, New [WithNumWorkers 0] = .ok d ∧ d.nWorkers = 0 ∧
      d.workers.length = 0 ∧ ¬ (1 ≤ d.nWorkers) :=
  ⟨allocate (applyOpts [WithNumWorkers 0]), rfl, rfl, rfl, by decide⟩

/-- C2, amended: `WithNumWorkers(n)` clamps from above only, it sets the
configured worker count to `min(n, 1000)` for every `n`. For `n ≥ 1` the pool
`New(WithNumWorkers(n))` has worker count `min(n, 1000)`, which lies in
`[1, 1000]`, and as many worker slots. -/
theorem WithNumWorkers_clamped_above {σ : Type} (n : Int) :
    (WithNumWorkers n (WorkerPool.literal : WorkerPool σ)).nWorkers = min n 1000 ∧
    (1 ≤ n →
      ∃ d : WorkerPool σ, New [WithNumWorkers n] = .ok d ∧
        d.nWorkers = min n 1000 ∧ 1 ≤ d.nWorkers ∧ d.nWorkers ≤ 1000 ∧
        (d.workers.length : Int) = d.nWorkers) := by
  refine ⟨clamp_workers n, fun hn => ?_⟩
  refine ⟨allocate (applyOpts [WithNumWorkers n]), ?_, ?_, ?_, ?_, ?_⟩
  · apply New_of_nonneg <;> rw [applyOpts_workers] <;> simp only <;> omega
  · rw [applyOpts_workers]; rfl
  · rw [applyOpts_workers]; simp only [allocate]; omega
  · rw [applyOpts_workers]; simp only [allocate]; omega
  · rw [applyOpts_workers]; simp only [allocate, List.length_replicate]; omega

theorem WithNumWorkers_clamped_above_witness :
    (1 : Int) ≤ 5000 ∧
    ∃ d : WorkerPool Unit, New [WithNumWorkers 5000] = .ok d ∧
      d.nWorkers = min 5000 1000 ∧ 1 ≤ d.nWorkers ∧ d.nWorkers ≤ 1000 ∧
      (d.workers.length : Int) = d.nWorkers :=
  ⟨by decide, (WithNumWorkers_clamped_above 5000).2 (by decide)⟩

/-- C3, as stated, fails: `New(WithBufferSize(-1))` does not return a pool, it
panics in `make(chan Task, -1)`. -/
theorem WithBufferSize_negative_panics :
    (New [WithBufferSize (-1)] : Except Panic (WorkerPool Unit)) = .error .makechanSize ∧
    ¬ ∃ d : WorkerPool Unit, New [WithBufferSize (-1)] = .ok d := by
  have h : (New [WithBufferSize (-1)] : Except Panic (WorkerPool Unit)) = .error .makechanSize :=
    rfl
  refine ⟨h, ?_⟩
  rintro ⟨d, hd⟩
  rw [h] at hd
  cases hd

/-- C3, amended: `WithBufferSize(c)` clamps from above only, it sets the
configured buffer size to `min(c, 1000)` for every `c`. For `c ≥ 0`,
`New(WithBufferSize(c))` returns a pool; its queue is empty and has capacity
`min(c, 1000)`, which lies in `[0, 1000]`. -/
theorem WithBufferSize_normalized {σ : Type} (c : Int) :
    (WithBufferSize c (WorkerPool.literal : WorkerPool σ)).bufferSize = min c 1000 ∧
    (0 ≤ c →
      ∃ d : WorkerPool σ, New [WithBufferSize c] = .ok d ∧
        d.bufferSize = min c 1000 ∧
        (d.taskBufferedChannel.cap : Int) = min c 1000 ∧
        d.taskBufferedChannel.cap ≤ 1000 ∧
        d.taskBufferedChannel.buf = []) := by
  refine ⟨clamp_buffer c, fun hc => ?_⟩
  refine ⟨allocate (applyOpts [WithBufferSize c]), ?_, ?_, ?_, ?_, ?_⟩
  · apply New_of_nonneg <;> rw [applyOpts_buffer] <;> simp only <;> omega
  · rw [applyOpts_buffer]; rfl
  · rw [applyOpts_buffer]; simp only [allocate]; omega
  · rw [applyOpts_buffer]; simp only [allocate]; omega
  · rfl

theorem WithBufferSize_normalized_witness :
    (0 : Int) ≤ 5000 ∧
    ∃ d : WorkerPool Unit, New [WithBufferSize 5000] = .ok d ∧
      d.bufferSize = min 5000 1000 ∧
      (d.taskBufferedChannel.cap : Int) = min 5000 1000 ∧
      d.taskBufferedChannel.cap ≤ 1000 ∧
      d.taskBufferedChannel.buf = [] :=
  ⟨by decide, (WithBufferSize_normalized 5000).2 (by decide)⟩

/-! ## The grace period of `stop` -/

/-- C10: for `1 ≤ n ≤ 1000` the grace period is `min(n * 10ms, 3s)` in
nanoseconds, computed without overflow: `n * 10ms` for `n ≤ 300` and `3s` for
`n ≥ 300`. -/
theorem stopTimeout_eq (n : Int) (h1 : 1 ≤ n) (h2 : n ≤ 1000) :
    wrap64 (wrap64 n * (10 * Millisecond)) = n * (10 * Millisecond) ∧
    stopTimeout n = min (n * (10 * Millisecond)) (3 * Second) ∧
    (n ≤ 300 → stopTimeout n = n * 10000000) ∧
    (300 ≤ n → stopTimeout n = 3000000000) := by
  have hw : wrap64 n = n := by
    unfold wrap64; norm_num; omega
  have hw2 : wrap64 (n * (10 * Millisecond)) = n * (10 * Millisecond) := by
    unfold wrap64 Millisecond; norm_num; omega
  refine ⟨by rw [hw, hw2], ?_, ?_, ?_⟩
  · unfold stopTimeout
    simp only [hw, hw2]
    unfold Millisecond Second
    split <;> omega
  · intro h
    unfold stopTimeout
    simp only [hw, hw2]
    unfold Millisecond Second
    split <;> omega
  · intro h
    unfold stopTimeout
    simp only [hw, hw2]
    unfold Millisecond Second
    split <;> omega

theorem stopTimeout_eq_witness :
    (1 : Int) ≤ 300 ∧ (300 : Int) ≤ 1000 ∧ stopTimeout 300 = 3000000000 ∧
    stopTimeout 5 = 50000000 :=
  ⟨by decide, by decide, (stopTimeout_eq 300 (by decide) (by decide)).2.2.2 (by decide),
    by decide⟩

/-! ## Tasks -/

/-- C4: a task built by `NewTask` with a completion group `g` and a work unit
that returns: `Do` runs the work unit once (the memory is the work unit's
result, the history gains one `ran` event), then signals `g` once (the
history gains one `signalled` event after the `ran` event, the counter of `g`
goes down by exactly 1 and no other counter moves); `Do` returns normally
whenever the counter was positive. -/
theorem Do_runs_then_signals {σ : Type} (id : String) (g : Nat) (work : σ → Option σ)
    (w : World σ) (m : σ) (hwork : work w.mem = some m) :
    ∃ w1 : World σ, ((NewTask id (some g) work).Do w).world = some w1 ∧
      w1.mem = m ∧
      w1.trace = w.trace ++ [Event.ran (NewTask id (some g) work),
                             Event.signalled (NewTask id (some g) work)] ∧
      w1.wgs g = w.wgs g - 1 ∧
      (∀ g1, g1 ≠ g → w1.wgs g1 = w.wgs g1) ∧
      (1 ≤ w.wgs g → (NewTask id (some g) work).Do w = .ok w1) := by
  refine ⟨{ mem := m, wgs := Function.update w.wgs g (w.wgs g - 1),
            trace := (w.trace ++ [Event.ran (NewTask id (some g) work)]) ++
                      [Event.signalled (NewTask id (some g) work)] }, ?_, rfl, ?_, ?_, ?_, ?_⟩
  · simp only [Task.Do, Task.runWork, NewTask, hwork, Task.signal]
    split <;> rfl
  · simp
  · simp
  · intro g1 hg1
    simp [Function.update, hg1]
  · intro hpos
    simp only [Task.Do, Task.runWork, NewTask, hwork, Task.signal]
    rw [if_neg]
    simp only [Function.update_same]
    omega

theorem Do_runs_then_signals_witness :
    ∃ w1 : World Int, (add5.Do (worldOf 2)).world = some w1 ∧
      w1.mem = 5 ∧
      w1.trace = (worldOf 2).trace ++ [Event.ran add5, Event.signalled add5] ∧
      w1.wgs 0 = (worldOf 2).wgs 0 - 1 ∧
      (∀ g1, g1 ≠ 0 → w1.wgs g1 = (worldOf 2).wgs g1) ∧
      (1 ≤ (worldOf 2).wgs 0 → add5.Do (worldOf 2) = .ok w1) :=
  Do_runs_then_signals "add5" 0 (fun m => some (m + 5)) (worldOf 2) 5 rfl

/-- C9: `NewTask` with a nil completion group stores the nil pointer and the
work unit as given; when the work unit returns, `Do` panics with a nil
dereference, in a world where the work unit has already run (the memory is
its result and the history has its `ran` event) and nothing was signalled. -/
theorem Do_nil_group_panics {σ : Type} (id : String) (work : σ → Option σ)
    (w : World σ) (m : σ) (hwork : work w.mem = some m) :
    (NewTask id none work).wg = none ∧ (NewTask id none work).doWork = work ∧
    (NewTask id none work).Do w =
      .panic .nilDereference
        { mem := m, wgs := w.wgs, trace := w.trace ++ [Event.ran (NewTask id none work)] } := by
  refine ⟨rfl, rfl, ?_⟩
  simp only [Task.Do, Task.runWork, NewTask, hwork, Task.signal]

theorem Do_nil_group_panics_witness :
    add5nil.wg = none ∧ add5nil.doWork = (fun m => some (m + 5)) ∧
    add5nil.Do (worldOf 2) =
      .panic .nilDereference
        { mem := 5, wgs := (worldOf 2).wgs, trace := (worldOf 2).trace ++ [Event.ran add5nil] } :=
  Do_nil_group_panics "add5nil" (fun m => some (m + 5)) (worldOf 2) 5 rfl

/-! ## The task queue -/

theorem recv_some {σ : Type} (ch ch1 : Chan (Task σ)) (t : Task σ)
    (h : ch.recv = some (t, ch1)) : ch.buf = t :: ch1.buf ∧ ch1.cap = ch.cap := by
  simp only [Chan.recv] at h
  split at h
  · cases h
  · rename_i x rest hb
    cases h
    exact ⟨hb, rfl⟩

/-! ## The running system: steps -/

theorem step_sound {σ : Type} (s s1 : Sys σ) (a : Action σ) (h : s.step a = some s1) :
    Step s s1 := by
  unfold Sys.step at h
  split at h
  · cases h
  · rename_i hcr
    have hc : s.crashed = none := by
      cases hcc : s.crashed with
      | none => rfl
      | some p => rw [hcc] at hcr; exact absurd rfl hcr
    cases a with
    | Run =>
      simp only at h
      split at h
      · rename_i hp
        split at h
        · rename_i d1 hr
          cases h
          exact Step.run s d1 hc hp hr
        · rename_i p hr
          cases h
          exact Step.crash s p hc
      · cases h
    | AddTask t =>
      simp only at h
      split at h
      · rename_i d1 ha
        cases h
        exact Step.addTask s t d1 hc ha
      · cases h
    | handoff t i =>
      simp only at h
      split at h
      · rename_i hcap
        split at h
        · rename_i hl
          cases h
          exact Step.handoff s t i hc hcap hl
        · cases h
      · cases h
    | recv i =>
      simp only at h
      split at h
      · rename_i hl
        split at h
        · rename_i t ch hr
          cases h
          exact Step.recv s i t ch hc hl hr
        · cases h
      · cases h
    | doWork i =>
      simp only at h
      split at h
      · rename_i t hl
        split at h
        · rename_i w1 hw
          cases h
          exact Step.doWork s i t w1 hc hl hw
        · cases h
      · cases h
    | wgDone i =>
      simp only at h
      split at h
      · rename_i t hl
        split at h
        · rename_i w1 hw
          cases h
          exact Step.wgDone s i t w1 hc hl hw
        · rename_i p w1 hw
          cases h
          exact Step.crash s p hc
        · cases h
      · cases h
    | stop =>
      simp only at h
      split at h
      · rename_i hp
        cases h
        exact Step.stop s hc hp
      · cases h
    | quit =>
      simp only at h
      split at h
      · rename_i i hp
        split at h
        · rename_i hi
          split at h
          · cases h
            exact Step.crash s _ hc
          · rename_i hl
            cases h
            exact Step.quit s i hc hp hi hl
          · cases h
        · cases h
      · cases h
    | deadline =>
      simp only at h
      split at h
      · rename_i i hp
        split at h
        · cases h
        · rename_i hi
          cases h
          exact Step.deadline s i hc hp hi
      · cases h

/-- An invariant of the steps holds along every schedule. -/
theorem exec_invariant {σ : Type} (P : Sys σ → Prop)
    (hstep : ∀ s s1, P s → Step s s1 → P s1) :
    ∀ (acts : List (Action σ)) (s s1 : Sys σ), Sys.exec acts s = some s1 → P s → P s1 := by
  intro acts
  induction acts with
  | nil =>
    intro s s1 h hp
    simp only [Sys.exec, Option.some.injEq] at h
    exact h ▸ hp
  | cons a rest ih =>
    intro s s1 h hp
    simp only [Sys.exec] at h
    split at h
    · cases h
    · rename_i s2 hs2
      exact ih s2 s1 h (hstep s s2 hp (step_sound s s2 a hs2))

/-! ## Pool operations on the worker slice -/

theorem loopAt_setLoop {σ : Type} (d : WorkerPool σ) (i j : Nat) (l : Loop σ) :
    (d.setLoop i l).loopAt j = if i = j then (d.loopAt j).map (fun _ => l) else d.loopAt j := by
  simp only [WorkerPool.loopAt, WorkerPool.setLoop, List.getElem?_modify]
  cases d.workers[j]? with
  | none => simp
  | some wk => by_cases h : i = j <;> simp [h]

theorem loopAt_lt {σ : Type} (d : WorkerPool σ) (j : Nat) (l : Loop σ)
    (h : d.loopAt j = some l) : j < d.workers.length := by
  simp only [WorkerPool.loopAt, Option.map_eq_some'] at h
  obtain ⟨wk, hwk, _⟩ := h
  exact (List.getElem?_eq_some.mp hwk).1

theorem length_setLoop {σ : Type} (d : WorkerPool σ) (i : Nat) (l : Loop σ) :
    (d.setLoop i l).workers.length = d.workers.length := by
  simp [WorkerPool.setLoop]

theorem AddTask_some {σ : Type} (d d1 : WorkerPool σ) (t : Task σ)
    (h : d.AddTask t = some d1) :
    d.taskBufferedChannel.buf.length < d.taskBufferedChannel.cap ∧
      d1 = { d with taskBufferedChannel :=
              { d.taskBufferedChannel with buf := d.taskBufferedChannel.buf ++ [t] } } := by
  simp only [WorkerPool.AddTask, Chan.send] at h
  split at h
  · cases h
  · rename_i ch hch
    split at hch
    · rename_i hlt
      cases hch
      cases h
      exact ⟨hlt, rfl⟩
    · cases hch

theorem runLoop_spec {σ : Type} : ∀ (k i : Nat) (d : WorkerPool σ),
    i + k = d.workers.length →
    ∃ d1, WorkerPool.runLoop k i d = .ok d1 ∧ d1.nWorkers = d.nWorkers ∧
      d1.bufferSize = d.bufferSize ∧ d1.taskBufferedChannel = d.taskBufferedChannel ∧
      d1.workers.length = d.workers.length ∧
      (∀ j, j < i → d1.workers[j]? = d.workers[j]?) ∧
      (∀ j, i ≤ j → j < i + k →
        d1.workers[j]? = some { ID := (j : Int) + 1, loop := .select }) := by
  intro k
  induction k with
  | zero =>
    intro i d _
    exact ⟨d, rfl, rfl, rfl, rfl, rfl, fun _ _ => rfl, fun j h1 h2 => by omega⟩
  | succ k ih =>
    intro i d hlen
    have hi : i < d.workers.length := by omega
    obtain ⟨d1, h1, h2, h3, h4, h5, h6, h7⟩ :=
      ih (i + 1) { d with workers := d.workers.set i (newWorker ((i : Int) + 1)).Start }
        (by simp only [List.length_set]; omega)
    refine ⟨d1, ?_, h2, h3, h4, ?_, ?_, ?_⟩
    · simp only [WorkerPool.runLoop, if_pos hi]
      exact h1
    · rw [h5]; simp
    · intro j hj
      rw [h6 j (by omega)]
      simp only
      rw [List.getElem?_set_ne (by omega)]
    · intro j hj1 hj2
      by_cases hji : j = i
      · subst hji
        rw [h6 j (by omega)]
        simp only
        rw [List.getElem?_set, if_pos rfl, if_pos hi]
        rfl
      · exact h7 j (by omega) (by omega)

theorem Run_spec {σ : Type} (d : WorkerPool σ) (hlen : d.workers.length = d.nWorkers.toNat) :
    ∃ d1, d.Run = .ok d1 ∧ d1.nWorkers = d.nWorkers ∧
      d1.taskBufferedChannel = d.taskBufferedChannel ∧
      d1.workers.length = d.workers.length ∧
      (∀ j, j < d.workers.length →
        d1.workers[j]? = some { ID := (j : Int) + 1, loop := .select }) := by
  obtain ⟨d1, h1, h2, _, h4, h5, _, h7⟩ := runLoop_spec d.nWorkers.toNat 0 d (by omega)
  exact ⟨d1, h1, h2, h4, h5, fun j hj => h7 j (by omega) (by omega)⟩

/-! ## The life cycle invariant -/

theorem phaseOk_live {σ : Type} (ph : Phase) (j : Nat) (l l1 : Loop σ)
    (h : phaseOk ph j l) (hl : l.live = true) (hl1 : l1.live = true) : phaseOk ph j l1 := by
  cases ph with
  | created => cases l <;> simp_all [phaseOk, Loop.live, Loop.isUnstarted]
  | running => exact hl1
  | stopping i =>
    simp only [phaseOk] at h ⊢
    split
    · rename_i hj
      rw [if_pos hj] at h
      cases l <;> simp_all [Loop.live, Loop.isReturned]
    · exact hl1
  | stopped => cases l <;> simp_all [phaseOk, Loop.live, Loop.isReturned]

/-- Replacing the control point of a live worker by a live control point keeps the invariant. -/
theorem lifecycle_setLive {σ : Type} (n0 : Int) (s : Sys σ) (d0 : WorkerPool σ)
    (w1 : World σ) (i : Nat) (l l1 : Loop σ)
    (hinv : LifecycleInv n0 s) (hn : d0.nWorkers = s.d.nWorkers) (hw : d0.workers = s.d.workers)
    (hl : s.d.loopAt i = some l) (hlive : l.live = true) (hlive1 : l1.live = true) :
    LifecycleInv n0 { s with d := d0.setLoop i l1, w := w1 } := by
  have hla : ∀ j, d0.loopAt j = s.d.loopAt j := fun j => by simp [WorkerPool.loopAt, hw]
  refine ⟨?_, ?_, ?_, hinv.bound⟩
  · show (d0.setLoop i l1).nWorkers = n0
    rw [← hinv.nWorkers, ← hn]; rfl
  · show (d0.setLoop i l1).workers.length = n0.toNat
    rw [length_setLoop, hw, hinv.len]
  · intro j l2 hj
    simp only [loopAt_setLoop, hla] at hj
    split at hj
    · rename_i hij
      subst hij
      rw [hl] at hj
      simp only [Option.map_some', Option.some.injEq] at hj
      subst hj
      exact phaseOk_live s.phase i l l1 (hinv.loops i l hl) hlive hlive1
    · exact hinv.loops j l2 hj

theorem lifecycle_step {σ : Type} (n0 : Int) (s s1 : Sys σ)
    (hinv : LifecycleInv n0 s) (hstep : Step s s1) : LifecycleInv n0 s1 := by
  cases hstep with
  | run d1 hc hp hr =>
    obtain ⟨d2, h1, h2, _, h4, h5⟩ := Run_spec s.d (by rw [hinv.len, hinv.nWorkers])
    rw [hr] at h1
    cases h1
    refine ⟨by rw [← hinv.nWorkers, ← h2], by rw [← hinv.len, ← h4], ?_, ?_⟩
    · intro j l hj
      have hj1 : j < d1.workers.length := loopAt_lt d1 j l hj
      simp only [WorkerPool.loopAt, h5 j (by omega), Option.map_some', Option.some.injEq] at hj
      subst hj
      rfl
    · intro i hi
      cases hi
  | crash p hc => exact ⟨hinv.nWorkers, hinv.len, hinv.loops, hinv.bound⟩
  | addTask t d1 hc ha =>
    obtain ⟨_, hd1⟩ := AddTask_some s.d d1 t ha
    subst hd1
    exact ⟨hinv.nWorkers, hinv.len, hinv.loops, hinv.bound⟩
  | handoff t i hc hcap hl =>
    exact lifecycle_setLive n0 s s.d _ i _ _ hinv rfl rfl hl rfl rfl
  | recv i t ch hc hl hr =>
    exact lifecycle_setLive n0 s _ _ i _ _ hinv rfl rfl hl rfl rfl
  | doWork i t w1 hc hl hw =>
    exact lifecycle_setLive n0 s s.d _ i _ _ hinv rfl rfl hl rfl rfl
  | wgDone i t w1 hc hl hw =>
    exact lifecycle_setLive n0 s s.d _ i _ _ hinv rfl rfl hl rfl rfl
  | stop hc hp =>
    refine ⟨hinv.nWorkers, hinv.len, ?_, ?_⟩
    · intro j l hj
      have := hinv.loops j l hj
      rw [hp] at this
      simpa [phaseOk] using this
    · intro i hi
      cases hi
      omega
  | quit i hc hp hi hl =>
    refine ⟨?_, ?_, ?_, ?_⟩
    · exact hinv.nWorkers
    · show (s.d.setLoop i .returned).workers.length = n0.toNat
      rw [length_setLoop, hinv.len]
    · intro j l hj
      simp only [loopAt_setLoop] at hj
      show phaseOk (.stopping (i + 1)) j l
      split at hj
      · rename_i hij
        subst hij
        rw [hl] at hj
        simp only [Option.map_some', Option.some.injEq] at hj
        subst hj
        simp [phaseOk, Loop.isReturned]
      · rename_i hij
        have := hinv.loops j l hj
        rw [hp] at this
        simp only [phaseOk] at this ⊢
        by_cases hji : j < i
        · rw [if_pos hji] at this
          rw [if_pos (by omega)]
          exact this
        · rw [if_neg hji] at this
          rw [if_neg (by omega)]
          exact this
    · intro k hk
      cases hk
      have := hinv.nWorkers
      omega
  | deadline i hc hp hi =>
    refine ⟨hinv.nWorkers, hinv.len, ?_, ?_⟩
    · intro j l hj
      have hlt : j < s.d.workers.length := loopAt_lt s.d j l hj
      have := hinv.loops j l hj
      rw [hp] at this
      have hn := hinv.nWorkers
      have hlen := hinv.len
      simp only [phaseOk] at this
      rw [if_pos (by omega)] at this
      exact this
    · intro k hk
      cases hk

theorem lifecycle_init {σ : Type} (opts : List (PoolOption σ)) (d : WorkerPool σ)
    (m : σ) (wgs : Nat → Int) (h : New opts = .ok d) :
    LifecycleInv d.nWorkers (Sys.init d m wgs) := by
  obtain ⟨_, hw, _, _, _⟩ := New_ok_inv opts d h
  refine ⟨rfl, ?_, ?_, ?_⟩
  · show d.workers.length = d.nWorkers.toNat
    rw [hw]; simp
  · intro j l hj
    show phaseOk .created j l
    simp only [Sys.init, WorkerPool.loopAt] at hj
    rw [hw, List.getElem?_replicate] at hj
    split at hj
    · simp only [Option.map_some', Option.some.injEq] at hj
      subst hj
      rfl
    · cases hj
  · intro i hi
    cases hi

theorem lifecycle_exec {σ : Type} (opts : List (PoolOption σ)) (d : WorkerPool σ)
    (m : σ) (wgs : Nat → Int) (acts : List (Action σ)) (s : Sys σ) (h : New opts = .ok d)
    (hexec : Sys.exec acts (Sys.init d m wgs) = some s) : LifecycleInv d.nWorkers s :=
  exec_invariant (LifecycleInv d.nWorkers) (lifecycle_step d.nWorkers) acts _ s hexec
    (lifecycle_init opts d m wgs h)

theorem liveLoops_eq_length {σ : Type} (d : WorkerPool σ)
    (h : ∀ j l, d.loopAt j = some l → l.live = true) : d.liveLoops = d.workers.length := by
  simp only [WorkerPool.liveLoops, List.countP_eq_length]
  intro wk hwk
  obtain ⟨j, hj⟩ := List.mem_iff_getElem?.mp hwk
  exact h j wk.loop (by simp [WorkerPool.loopAt, hj])

theorem liveLoops_eq_zero {σ : Type} (d : WorkerPool σ)
    (h : ∀ j l, d.loopAt j = some l → l.live = false) : d.liveLoops = 0 := by
  simp only [WorkerPool.liveLoops, List.countP_eq_zero]
  intro wk hwk
  obtain ⟨j, hj⟩ := List.mem_iff_getElem?.mp hwk
  simp [h j wk.loop (by simp [WorkerPool.loopAt, hj])]

theorem Loop.eq_returned {σ : Type} (l : Loop σ) (h : l.isReturned = true) : l = .returned := by
  cases l <;> simp_all [Loop.isReturned]

/-- C7: a pool made by `New` has no live worker goroutine before `Run`; `Run`
returns and leaves exactly `nWorkers` live worker loops, which stay live
until `stop` is invoked; and in every state, along every schedule, in which
the stop function has returned, each of the `nWorkers` goroutines has left
its loop, so the number of live worker goroutines is back to 0. -/
theorem stop_returns_all_terminated {σ : Type} (opts : List (PoolOption σ))
    (d : WorkerPool σ) (m : σ) (wgs : Nat → Int) (acts : List (Action σ)) (s : Sys σ)
    (hnew : New opts = .ok d) (hexec : Sys.exec acts (Sys.init d m wgs) = some s) :
    d.liveLoops = 0 ∧
    (∃ d1, d.Run = .ok d1 ∧ (d1.liveLoops : Int) = d.nWorkers) ∧
    (s.phase = .running → (s.d.liveLoops : Int) = d.nWorkers) ∧
    (s.phase = .stopped →
      s.d.liveLoops = 0 ∧ (s.d.workers.length : Int) = d.nWorkers ∧
      ∀ j, j < s.d.workers.length → s.d.loopAt j = some .returned) := by
  have hinv := lifecycle_exec opts d m wgs acts s hnew hexec
  have hinit := lifecycle_init opts d m wgs hnew
  obtain ⟨hnn, _, _, _, _⟩ := New_ok_inv opts d hnew
  refine ⟨?_, ?_, ?_, ?_⟩
  · apply liveLoops_eq_zero
    intro j l hj
    have := hinit.loops j l hj
    cases l <;> simp_all [phaseOk, Sys.init, Loop.isUnstarted, Loop.live]
  · obtain ⟨d1, h1, h2, _, h4, h5⟩ := Run_spec d hinit.len
    refine ⟨d1, h1, ?_⟩
    have hlen : d.workers.length = d.nWorkers.toNat := hinit.len
    rw [liveLoops_eq_length, h4, hlen]
    · exact Int.toNat_of_nonneg hnn
    · intro j l hj
      have hj1 : j < d1.workers.length := loopAt_lt d1 j l hj
      simp only [WorkerPool.loopAt, h5 j (by omega), Option.map_some', Option.some.injEq] at hj
      subst hj
      rfl
  · intro hp
    rw [liveLoops_eq_length, hinv.len]
    · exact Int.toNat_of_nonneg hnn
    · intro j l hj
      have := hinv.loops j l hj
      rw [hp] at this
      exact this
  · intro hp
    have hret : ∀ j l, s.d.loopAt j = some l → l.isReturned = true := by
      intro j l hj
      have := hinv.loops j l hj
      rw [hp] at this
      exact this
    refine ⟨?_, ?_, ?_⟩
    · apply liveLoops_eq_zero
      intro j l hj
      rw [Loop.eq_returned l (hret j l hj)]
      rfl
    · rw [hinv.len]
      exact Int.toNat_of_nonneg hnn
    · intro j hj
      cases hl : s.d.loopAt j with
      | none =>
        simp only [WorkerPool.loopAt, Option.map_eq_none'] at hl
        have := List.getElem?_eq_none_iff.mp hl
        omega
      | some l => rw [Loop.eq_returned l (hret j l hl)]

/-- Test `TestDispatcher_Run_Stop_Workers` with 2 workers: 2 live goroutines
after `Run`, none once the stop function has returned. -/
theorem stop_returns_all_terminated_witness :
    (Sys.after [.Run] (sysOf 2 10 0)).d.liveLoops = 2 ∧
    (Sys.after runStopSchedule (sysOf 2 10 0)).phase = .stopped ∧
    (Sys.after runStopSchedule (sysOf 2 10 0)).d.liveLoops = 0 :=
  ⟨by decide, by decide,
    ((stop_returns_all_terminated [WithNumWorkers 2, WithBufferSize 10] (poolOf 2 10) 0
      (fun _ => 0) runStopSchedule (Sys.after runStopSchedule (sysOf 2 10 0)) rfl rfl).2.2.2
      (by decide)).1⟩

/-! ## After the workers have stopped -/

theorem onlyAdds_step {σ : Type} (s1 s s2 : Sys σ) (h : OnlyAdds s1 s) (hstep : Step s s2) :
    OnlyAdds s1 s2 := by
  have hst := h.stopped
  have hno : ∀ i l, s.d.loopAt i = some l → l.isReturned = false → False := by
    intro i l hl hr
    have := hst.loops i l hl
    rw [hr] at this
    cases this
  cases hstep with
  | run d1 hc hp hr =>
    rcases hst.phase with h1 | ⟨i, h1, _⟩ <;> rw [hp] at h1 <;> cases h1
  | crash p hc => exact ⟨⟨hst.loops, hst.phase⟩, h.trace, h.queue, h.wgs, h.mem⟩
  | addTask t d1 hc ha =>
    obtain ⟨_, hd1⟩ := AddTask_some s.d d1 t ha
    subst hd1
    refine ⟨⟨hst.loops, hst.phase⟩, ?_, ?_, h.wgs, h.mem⟩
    · obtain ⟨more, hm, hall⟩ := h.trace
      refine ⟨more ++ [.added t], ?_, ?_⟩
      · show s.w.trace ++ [.added t] = _
        rw [hm, List.append_assoc]
      · intro e he
        rcases List.mem_append.mp he with he | he
        · exact hall e he
        · rw [List.mem_singleton.mp he]; rfl
    · obtain ⟨more, hm⟩ := h.queue
      refine ⟨more ++ [t], ?_⟩
      show s.d.taskBufferedChannel.buf ++ [t] = _
      rw [hm, List.append_assoc]
  | handoff t i hc hcap hl => exact (hno i _ hl rfl).elim
  | recv i t ch hc hl hr => exact (hno i _ hl rfl).elim
  | doWork i t w1 hc hl hw => exact (hno i _ hl rfl).elim
  | wgDone i t w1 hc hl hw => exact (hno i _ hl rfl).elim
  | stop hc hp =>
    rcases hst.phase with h1 | ⟨i, h1, _⟩ <;> rw [hp] at h1 <;> cases h1
  | quit i hc hp hi hl => exact (hno i _ hl rfl).elim
  | deadline i hc hp hi =>
    exact ⟨⟨hst.loops, Or.inl rfl⟩, h.trace, h.queue, h.wgs, h.mem⟩

theorem filterMap_of_isAdded {σ : Type} (f : Event σ → Option (Task σ))
    (hf : ∀ t, f (.added t) = none) (more : List (Event σ))
    (h : ∀ e ∈ more, Event.isAdded e = true) : more.filterMap f = [] := by
  rw [List.filterMap_eq_nil_iff]
  intro e he
  have := h e he
  cases e <;> simp_all [Event.isAdded]

/-- C8, as stated, fails. One worker and capacity 10: after `Run` and one
`AddTask` the task is in the queue, the worker waits at its `select`, nothing
has been received or run, and the group's counter is 1. The stop function is
then invoked; the worker, not yet stopped, takes the task case of its
`select`, runs the task and signals its group: the queue is empty, the task
has been received, run and signalled, the accumulator is 5 and the counter 0.
So the tasks in the queue at the invocation of `stop` do not all stay in the
queue. -/
theorem queued_task_runs_after_stop_invoked :
    (Sys.after [.Run, .AddTask add5] (sysOf 1 10 1)).phase = .running ∧
    (Sys.after [.Run, .AddTask add5] (sysOf 1 10 1)).d.taskBufferedChannel.buf = [add5] ∧
    (Sys.after [.Run, .AddTask add5] (sysOf 1 10 1)).d.loopAt 0 = some .select ∧
    (Sys.after [.Run, .AddTask add5] (sysOf 1 10 1)).d.workers.length = 1 ∧
    receivedTasks (Sys.after [.Run, .AddTask add5] (sysOf 1 10 1)).w.trace = [] ∧
    ranTasks (Sys.after [.Run, .AddTask add5] (sysOf 1 10 1)).w.trace = [] ∧
    (Sys.after [.Run, .AddTask add5] (sysOf 1 10 1)).w.wgs 0 = 1 ∧
    (∃ s2, Sys.exec [.stop, .recv 0, .doWork 0, .wgDone 0]
        (Sys.after [.Run, .AddTask add5] (sysOf 1 10 1)) = some s2 ∧
      s2.phase = .stopping 0 ∧
      s2.d.taskBufferedChannel.buf = [] ∧
      receivedTasks s2.w.trace = [add5] ∧
      ranTasks s2.w.trace = [add5] ∧
      signalledTasks s2.w.trace = [add5] ∧
      s2.w.mem = 5 ∧ s2.w.wgs 0 = 0) ∧
    ¬ ∀ (pre post : List (Action Int)) (s1 s2 : Sys Int),
        Sys.exec pre (sysOf 1 10 1) = some s1 → s1.phase = .running →
        Sys.exec (.stop :: post) s1 = some s2 →
        ∃ more, s2.d.taskBufferedChannel.buf = s1.d.taskBufferedChannel.buf ++ more := by
  refine ⟨rfl, rfl, rfl, rfl, rfl, rfl, rfl,
    ⟨Sys.after [.stop, .recv 0, .doWork 0, .wgDone 0]
        (Sys.after [.Run, .AddTask add5] (sysOf 1 10 1)),
      rfl, rfl, rfl, rfl, rfl, rfl, rfl, rfl⟩, ?_⟩
  intro h
  obtain ⟨more, hmore⟩ := h [.Run, .AddTask add5] [.recv 0, .doWork 0, .wgDone 0]
    (Sys.after [.Run, .AddTask add5] (sysOf 1 10 1))
    (Sys.after [.stop, .recv 0, .doWork 0, .wgDone 0]
      (Sys.after [.Run, .AddTask add5] (sysOf 1 10 1)))
    rfl rfl rfl
  have h2 := congrArg List.length hmore
  have h3 : (Sys.after [.stop, .recv 0, .doWork 0, .wgDone 0]
      (Sys.after [.Run, .AddTask add5] (sysOf 1 10 1))).d.taskBufferedChannel.buf.length = 0 := rfl
  have h4 : (Sys.after [.Run, .AddTask add5]
      (sysOf 1 10 1)).d.taskBufferedChannel.buf.length = 1 := rfl
  rw [List.length_append, h3, h4] at h2
  omega

/-- A worker waiting at its `select` can take the task at the head of the
queue, whatever the phase. -/
theorem recv_enabled {σ : Type} (s : Sys σ) (j : Nat) (t : Task σ) (rest : List (Task σ))
    (hc : s.crashed = none) (hl : s.d.loopAt j = some .select)
    (hb : s.d.taskBufferedChannel.buf = t :: rest) :
    ∃ s1, s.step (.recv j) = some s1 ∧ s1.d.taskBufferedChannel.buf = rest ∧
      s1.d.loopAt j = some (.doWork t) ∧
      receivedTasks s1.w.trace = receivedTasks s.w.trace ++ [t] ∧
      s1.phase = s.phase := by
  have hr : s.d.taskBufferedChannel.recv
      = some (t, { s.d.taskBufferedChannel with buf := rest }) := by
    simp only [Chan.recv, hb]
  refine ⟨{ s with d := ({ s.d with taskBufferedChannel :=
                            { s.d.taskBufferedChannel with buf := rest } } :
                          WorkerPool σ).setLoop j (.doWork t),
                   w := s.w.log (.received t) }, ?_, rfl, ?_, ?_, rfl⟩
  · simp only [Sys.step, hc, Option.isSome_none, Bool.false_eq_true, if_false, hl, hr]
  · have hl1 : ({ s.d with taskBufferedChannel :=
                    { s.d.taskBufferedChannel with buf := rest } } : WorkerPool σ).loopAt j
        = some .select := hl
    show (({ s.d with taskBufferedChannel :=
                { s.d.taskBufferedChannel with buf := rest } } : WorkerPool σ).setLoop j
            (.doWork t)).loopAt j = some (.doWork t)
    rw [loopAt_setLoop, if_pos rfl, hl1]
    rfl
  · show receivedTasks (s.w.trace ++ [Event.received t]) = _
    simp [receivedTasks]

/-- C8, amended: once the stop function has finished its loop over the workers
(it is waiting for the deadline, or has returned), the tasks in the queue
stay there for good: along every further schedule the queue only grows at
its tail, no task is received, run or signalled, and neither the wait-group
counters nor the memory change. Before that, while the stop function is
still in its loop, any worker waiting at its `select` can still take the
task at the head of the queue. -/
theorem queued_tasks_never_run_after_workers_stopped {σ : Type} (opts : List (PoolOption σ))
    (d : WorkerPool σ) (m : σ) (wgs : Nat → Int) (pre post : List (Action σ)) (s1 s2 : Sys σ)
    (hnew : New opts = .ok d) (hpre : Sys.exec pre (Sys.init d m wgs) = some s1)
    (hph : s1.phase = .stopping d.nWorkers.toNat ∨ s1.phase = .stopped)
    (hpost : Sys.exec post s1 = some s2) :
    (∃ more, s2.d.taskBufferedChannel.buf = s1.d.taskBufferedChannel.buf ++ more) ∧
      receivedTasks s2.w.trace = receivedTasks s1.w.trace ∧
      ranTasks s2.w.trace = ranTasks s1.w.trace ∧
      signalledTasks s2.w.trace = signalledTasks s1.w.trace ∧
      s2.w.wgs = s1.w.wgs ∧ s2.w.mem = s1.w.mem ∧
      (∀ (s0 : Sys σ) (i j : Nat) (t : Task σ) (rest : List (Task σ)),
        s0.crashed = none → s0.phase = .stopping i → s0.d.loopAt j = some .select →
        s0.d.taskBufferedChannel.buf = t :: rest →
        ∃ s3, s0.step (.recv j) = some s3 ∧ s3.d.taskBufferedChannel.buf = rest ∧
          s3.d.loopAt j = some (.doWork t) ∧
          receivedTasks s3.w.trace = receivedTasks s0.w.trace ++ [t] ∧
          s3.phase = .stopping i) := by
  have hinv := lifecycle_exec opts d m wgs pre s1 hnew hpre
  have hst : AllStopped s1 := by
    rcases hph with hp | hp
    · refine ⟨?_, Or.inr ⟨_, hp, ?_⟩⟩
      · intro j l hj
        have hlt : j < s1.d.workers.length := loopAt_lt s1.d j l hj
        have := hinv.loops j l hj
        rw [hp] at this
        simp only [phaseOk] at this
        rw [if_pos (by rw [← hinv.len]; exact hlt)] at this
        exact this
      · rw [hinv.nWorkers]; omega
    · refine ⟨?_, Or.inl hp⟩
      intro j l hj
      have := hinv.loops j l hj
      rw [hp] at this
      exact this
  have h0 : OnlyAdds s1 s1 :=
    ⟨hst, ⟨[], by simp, by simp⟩, ⟨[], by simp⟩, rfl, rfl⟩
  have h := exec_invariant (OnlyAdds s1) (onlyAdds_step s1) post s1 s2 hpost h0
  obtain ⟨more, hm, hall⟩ := h.trace
  refine ⟨h.queue, ?_, ?_, ?_, h.wgs, h.mem, ?_⟩
  · simp only [receivedTasks, hm, List.filterMap_append]
    rw [filterMap_of_isAdded _ (fun _ => rfl) more hall, List.append_nil]
  · simp only [ranTasks, hm, List.filterMap_append]
    rw [filterMap_of_isAdded _ (fun _ => rfl) more hall, List.append_nil]
  · simp only [signalledTasks, hm, List.filterMap_append]
    rw [filterMap_of_isAdded _ (fun _ => rfl) more hall, List.append_nil]
  · intro s0 i j t rest hc hp hl hb
    obtain ⟨s3, h1, h2, h3, h4, h5⟩ := recv_enabled s0 j t rest hc hl hb
    exact ⟨s3, h1, h2, h3, h4, h5.trans hp⟩

/-- Two workers, a task added before `Run`. When both workers are stopped
before either takes it, the task is still in the queue when the stop function
has returned, and a task added later joins it; neither has run. When the
stop function has only been invoked, worker 1 can still take the task. -/
theorem queued_tasks_never_run_after_workers_stopped_witness :
    (Sys.after (.AddTask add5 :: runStopSchedule) (sysOf 2 10 1)).phase = .stopped ∧
    (Sys.after [.AddTask add5]
      (Sys.after (.AddTask add5 :: runStopSchedule) (sysOf 2 10 1))).d.taskBufferedChannel.buf.length
        = 2 ∧
    ranTasks (Sys.after [.AddTask add5]
      (Sys.after (.AddTask add5 :: runStopSchedule) (sysOf 2 10 1))).w.trace
      = ranTasks (Sys.after (.AddTask add5 :: runStopSchedule) (sysOf 2 10 1)).w.trace ∧
    (∃ s3, (Sys.after [.AddTask add5, .Run, .stop] (sysOf 2 10 1)).step (.recv 1) = some s3 ∧
      s3.d.taskBufferedChannel.buf = [] ∧ s3.d.loopAt 1 = some (.doWork add5) ∧
      receivedTasks s3.w.trace =
        receivedTasks (Sys.after [.AddTask add5, .Run, .stop] (sysOf 2 10 1)).w.trace ++ [add5] ∧
      s3.phase = .stopping 0) :=
  ⟨rfl, rfl,
    (queued_tasks_never_run_after_workers_stopped [WithNumWorkers 2, WithBufferSize 10]
      (poolOf 2 10) 0 (fun _ => 1) (.AddTask add5 :: runStopSchedule) [.AddTask add5]
      (Sys.after (.AddTask add5 :: runStopSchedule) (sysOf 2 10 1))
      (Sys.after [.AddTask add5] (Sys.after (.AddTask add5 :: runStopSchedule) (sysOf 2 10 1)))
      rfl rfl (Or.inr rfl) rfl).2.2.1,
    (queued_tasks_never_run_after_workers_stopped [WithNumWorkers 2, WithBufferSize 10]
      (poolOf 2 10) 0 (fun _ => 1) (.AddTask add5 :: runStopSchedule) [.AddTask add5]
      (Sys.after (.AddTask add5 :: runStopSchedule) (sysOf 2 10 1))
      (Sys.after [.AddTask add5] (Sys.after (.AddTask add5 :: runStopSchedule) (sysOf 2 10 1)))
      rfl rfl (Or.inr rfl) rfl).2.2.2.2.2.2
      (Sys.after [.AddTask add5, .Run, .stop] (sysOf 2 10 1)) 0 1 add5 [] rfl rfl rfl rfl⟩

/-! ## Every task runs once -/

theorem heldBy_modify {σ : Type} (f : Loop σ → List (Task σ)) (g : worker σ → worker σ) :
    ∀ (ws : List (worker σ)) (i : Nat) (wk : worker σ), ws[i]? = some wk →
      ((heldBy f (ws.modify g i) : List _) : Multiset (Task σ)) + (f wk.loop : List _) =
        (heldBy f ws : List _) + (f (g wk).loop : List _) := by
  intro ws
  induction ws with
  | nil => intro i wk h; simp at h
  | cons a rest ih =>
    intro i wk h
    cases i with
    | zero =>
      simp only [List.getElem?_cons_zero, Option.some.injEq] at h
      subst h
      simp only [List.modify_zero_cons, heldBy, ← Multiset.coe_add]
      abel
    | succ i =>
      simp only [List.getElem?_cons_succ] at h
      have := ih i wk h
      rw [List.modify_succ_cons]
      simp only [heldBy, ← Multiset.coe_add]
      rw [add_assoc, this]
      abel

theorem heldBy_setLoop {σ : Type} (f : Loop σ → List (Task σ)) (d : WorkerPool σ) (i : Nat)
    (l l1 : Loop σ) (h : d.loopAt i = some l) :
    ((heldBy f (d.setLoop i l1).workers : List _) : Multiset (Task σ)) + (f l : List _) =
      (heldBy f d.workers : List _) + (f l1 : List _) := by
  simp only [WorkerPool.loopAt, Option.map_eq_some'] at h
  obtain ⟨wk, hwk, hl⟩ := h
  subst hl
  exact heldBy_modify f _ d.workers i wk hwk

theorem heldBy_nil {σ : Type} (f : Loop σ → List (Task σ)) :
    ∀ (ws : List (worker σ)), (∀ wk ∈ ws, f wk.loop = []) → heldBy f ws = [] := by
  intro ws
  induction ws with
  | nil => intro _; rfl
  | cons a rest ih =>
    intro h
    simp only [heldBy, h a (List.mem_cons_self _ _), List.nil_append]
    exact ih (fun wk hwk => h wk (List.mem_cons_of_mem _ hwk))

theorem heldBy_nil_of_loopAt {σ : Type} (f : Loop σ → List (Task σ)) (d : WorkerPool σ)
    (h : ∀ j l, d.loopAt j = some l → f l = []) : heldBy f d.workers = [] := by
  apply heldBy_nil
  intro wk hwk
  obtain ⟨j, hj⟩ := List.mem_iff_getElem?.mp hwk
  exact h j wk.loop (by simp [WorkerPool.loopAt, hj])

theorem runWork_some {σ : Type} (t : Task σ) (w w1 : World σ) (h : t.runWork w = some w1) :
    ∃ m, t.doWork w.mem = some m ∧
      w1 = { w with mem := m, trace := w.trace ++ [Event.ran t] } := by
  simp only [Task.runWork] at h
  split at h
  · cases h
  · rename_i m hm
    cases h
    exact ⟨m, hm, rfl⟩

theorem signal_ok {σ : Type} (t : Task σ) (w w1 : World σ) (h : t.signal w = .ok w1) :
    ∃ g, t.wg = some g ∧
      w1 = { w with wgs := Function.update w.wgs g (w.wgs g - 1),
                    trace := w.trace ++ [Event.signalled t] } := by
  simp only [Task.signal] at h
  split at h
  · cases h
  · rename_i g hg
    split at h
    · cases h
    · cases h
      exact ⟨g, hg, rfl⟩

theorem runAll_append {σ : Type} (t : Task σ) :
    ∀ (ts : List (Task σ)) (m0 m : σ), runAll ts m0 = some m →
      runAll (ts ++ [t]) m0 = t.doWork m := by
  intro ts
  induction ts with
  | nil =>
    intro m0 m h
    simp only [runAll, Option.some.injEq] at h
    subst h
    simp only [List.nil_append, runAll]
    cases t.doWork m0 <;> rfl
  | cons a rest ih =>
    intro m0 m h
    simp only [List.cons_append, runAll] at h ⊢
    split at h
    · cases h
    · exact ih _ m h

theorem chan_setLoop {σ : Type} (d : WorkerPool σ) (i : Nat) (l : Loop σ) :
    (d.setLoop i l).taskBufferedChannel = d.taskBufferedChannel := rfl

theorem tasks_append {σ : Type} (a b : List (Event σ)) :
    addedTasks (a ++ b) = addedTasks a ++ addedTasks b ∧
    receivedTasks (a ++ b) = receivedTasks a ++ receivedTasks b ∧
    ranTasks (a ++ b) = ranTasks a ++ ranTasks b ∧
    signalledTasks (a ++ b) = signalledTasks a ++ signalledTasks b := by
  simp [addedTasks, receivedTasks, ranTasks, signalledTasks]

theorem tasks_single {σ : Type} (t : Task σ) :
    (addedTasks [Event.added t] = [t] ∧ addedTasks [Event.received t] = [] ∧
      addedTasks [Event.ran t] = [] ∧ addedTasks [Event.signalled t] = []) ∧
    (ranTasks [Event.added t] = [] ∧ ranTasks [Event.received t] = [] ∧
      ranTasks [Event.ran t] = [t] ∧ ranTasks [Event.signalled t] = []) ∧
    (signalledTasks [Event.added t] = [] ∧ signalledTasks [Event.received t] = [] ∧
      signalledTasks [Event.ran t] = [] ∧ signalledTasks [Event.signalled t] = [t]) :=
  ⟨⟨rfl, rfl, rfl, rfl⟩, ⟨rfl, rfl, rfl, rfl⟩, ⟨rfl, rfl, rfl, rfl⟩⟩

theorem count_step {σ : Type} (n0 : Int) (m0 : σ) (wgs0 : Nat → Int) (s s1 : Sys σ)
    (hlife : LifecycleInv n0 s) (h : CountInv m0 wgs0 s) (hstep : Step s s1) :
    CountInv m0 wgs0 s1 := by
  have hadd := h.added
  have hran := h.ran
  have hwgs := h.wgs
  have hmem := h.mem
  cases hstep with
  | run d1 hc hp hr =>
    obtain ⟨d2, h1, _, h3, h4, h5⟩ := Run_spec s.d (by rw [hlife.len, hlife.nWorkers])
    rw [hr] at h1
    cases h1
    have hold : ∀ f : Loop σ → List (Task σ), f .unstarted = [] →
        heldBy f s.d.workers = [] := by
      intro f hf
      apply heldBy_nil_of_loopAt
      intro j l hj
      have := hlife.loops j l hj
      rw [hp] at this
      cases l <;> simp_all [phaseOk, Loop.isUnstarted]
    have hnew : ∀ f : Loop σ → List (Task σ), f .select = [] →
        heldBy f d1.workers = [] := by
      intro f hf
      apply heldBy_nil_of_loopAt
      intro j l hj
      have hj1 : j < d1.workers.length := loopAt_lt d1 j l hj
      simp only [WorkerPool.loopAt, h5 j (by omega), Option.map_some', Option.some.injEq] at hj
      subst hj
      exact hf
    refine ⟨?_, ?_, hwgs, hmem⟩
    · dsimp only
      rw [hnew _ rfl, hnew _ rfl, h3, hadd, hold _ rfl, hold _ rfl]
    · dsimp only
      rw [hnew _ rfl, hran, hold _ rfl]
  | crash p hc => exact ⟨hadd, hran, hwgs, hmem⟩
  | addTask t d1 hc ha =>
    obtain ⟨_, hd1⟩ := AddTask_some s.d d1 t ha
    subst hd1
    refine ⟨?_, ?_, ?_, ?_⟩
    · dsimp only [World.log]
      simp only [tasks_append, tasks_single, List.append_nil, chan_setLoop, ← Multiset.coe_add]
      rw [hadd]
      abel
    · dsimp only [World.log]
      simp only [tasks_append, tasks_single, List.append_nil]
      exact hran
    · intro g
      dsimp only [World.log]
      simp only [tasks_append, tasks_single, List.append_nil]
      exact hwgs g
    · dsimp only [World.log]
      simp only [tasks_append, tasks_single, List.append_nil]
      exact hmem
  | handoff t i hc hcap hl =>
    have hp := heldBy_setLoop Loop.pending s.d i _ (.doWork t) hl
    have hu := heldBy_setLoop Loop.unsignalled s.d i _ (.doWork t) hl
    simp only [Loop.pending, Loop.unsignalled, Multiset.coe_nil, add_zero] at hp hu
    refine ⟨?_, ?_, ?_, ?_⟩
    · dsimp only [World.log]
      simp only [tasks_append, tasks_single, List.append_nil, chan_setLoop, ← Multiset.coe_add]
      rw [hp, hu, hadd]
      abel
    · dsimp only [World.log]
      simp only [tasks_append, tasks_single, List.append_nil]
      rw [hu, hran]
    · intro g
      dsimp only [World.log]
      simp only [tasks_append, tasks_single, List.append_nil]
      exact hwgs g
    · dsimp only [World.log]
      simp only [tasks_append, tasks_single, List.append_nil]
      exact hmem
  | recv i t ch hc hl hr =>
    obtain ⟨hbuf, _⟩ := recv_some _ ch t hr
    have hbuf1 : s.d.taskBufferedChannel.buf = [t] ++ ch.buf := hbuf
    have hl1 : ({ s.d with taskBufferedChannel := ch } : WorkerPool σ).loopAt i = some .select := hl
    have hp := heldBy_setLoop Loop.pending { s.d with taskBufferedChannel := ch } i _
      (.doWork t) hl1
    have hu := heldBy_setLoop Loop.unsignalled { s.d with taskBufferedChannel := ch } i _
      (.doWork t) hl1
    simp only [Loop.pending, Loop.unsignalled, Multiset.coe_nil, add_zero] at hp hu
    refine ⟨?_, ?_, ?_, ?_⟩
    · dsimp only [World.log]
      rw [hbuf1] at hadd
      simp only [tasks_append, tasks_single, List.append_nil, chan_setLoop, ← Multiset.coe_add] at hadd ⊢
      rw [hp, hu, hadd]
      abel
    · dsimp only [World.log]
      simp only [tasks_append, tasks_single, List.append_nil]
      rw [hu, hran]
    · intro g
      dsimp only [World.log]
      simp only [tasks_append, tasks_single, List.append_nil]
      exact hwgs g
    · dsimp only [World.log]
      simp only [tasks_append, tasks_single, List.append_nil]
      exact hmem
  | doWork i t w1 hc hl hw =>
    obtain ⟨m, hm, hw1⟩ := runWork_some t s.w w1 hw
    subst hw1
    have hp := heldBy_setLoop Loop.pending s.d i _ (.wgDone t) hl
    have hu := heldBy_setLoop Loop.unsignalled s.d i _ (.wgDone t) hl
    simp only [Loop.pending, Loop.unsignalled, Multiset.coe_nil, add_zero] at hp hu
    refine ⟨?_, ?_, ?_, ?_⟩
    · dsimp only
      simp only [tasks_append, tasks_single, List.append_nil, chan_setLoop, ← Multiset.coe_add]
      rw [hu, hadd, ← hp]
      abel
    · dsimp only
      simp only [tasks_append, tasks_single, List.append_nil, chan_setLoop, ← Multiset.coe_add]
      rw [hu, hran]
      abel
    · intro g
      dsimp only
      simp only [tasks_append, tasks_single, List.append_nil]
      exact hwgs g
    · dsimp only
      simp only [tasks_append, tasks_single]
      rw [runAll_append t _ m0 s.w.mem hmem, hm]
  | wgDone i t w1 hc hl hw =>
    obtain ⟨g, hg, hw1⟩ := signal_ok t s.w w1 hw
    subst hw1
    have hp := heldBy_setLoop Loop.pending s.d i _ .select hl
    have hu := heldBy_setLoop Loop.unsignalled s.d i _ .select hl
    simp only [Loop.pending, Loop.unsignalled, Multiset.coe_nil, add_zero] at hp hu
    refine ⟨?_, ?_, ?_, ?_⟩
    · dsimp only
      simp only [tasks_append, tasks_single, List.append_nil, chan_setLoop, ← Multiset.coe_add]
      rw [hp, hadd, ← hu]
      abel
    · dsimp only
      simp only [tasks_append, tasks_single, List.append_nil, chan_setLoop, ← Multiset.coe_add]
      rw [hran, ← hu]
      abel
    · intro g1
      have := hwgs g1
      dsimp only
      simp only [tasks_append, tasks_single, countGroup, List.countP_append, List.countP_cons,
        List.countP_nil] at this ⊢
      by_cases hgg : g1 = g
      · subst hgg
        simp only [Function.update_same, hg, decide_True, if_true]
        push_cast
        omega
      · have hne : ¬ (t.wg = some g1) := by
          rw [hg]
          intro hh
          exact hgg (Option.some.inj hh).symm
        simp only [Function.update_noteq hgg, hne, decide_False]
        simpa using this
    · dsimp only
      simp only [tasks_append, tasks_single, List.append_nil]
      exact hmem
  | stop hc hp => exact ⟨hadd, hran, hwgs, hmem⟩
  | quit i hc hp hi hl =>
    have hp1 := heldBy_setLoop Loop.pending s.d i _ .returned hl
    have hu := heldBy_setLoop Loop.unsignalled s.d i _ .returned hl
    simp only [Loop.pending, Loop.unsignalled, Multiset.coe_nil, add_zero] at hp1 hu
    refine ⟨?_, ?_, hwgs, hmem⟩
    · dsimp only
      rw [hp1, hu, hadd, chan_setLoop]
    · dsimp only
      rw [hu, hran]
  | deadline i hc hp hi => exact ⟨hadd, hran, hwgs, hmem⟩

theorem count_init {σ : Type} (opts : List (PoolOption σ)) (d : WorkerPool σ)
    (m : σ) (wgs : Nat → Int) (h : New opts = .ok d) : CountInv m wgs (Sys.init d m wgs) := by
  obtain ⟨_, hw, hb, _, _⟩ := New_ok_inv opts d h
  have hheld : ∀ f : Loop σ → List (Task σ), f .unstarted = [] → heldBy f d.workers = [] := by
    intro f hf
    apply heldBy_nil
    intro wk hwk
    rw [hw] at hwk
    rw [(List.mem_replicate.mp hwk).2]
    exact hf
  refine ⟨?_, ?_, ?_, rfl⟩
  · show ((addedTasks [] : List (Task σ)) : Multiset (Task σ)) = _
    simp only [Sys.init, hb, hheld Loop.pending rfl, hheld Loop.unsignalled rfl]
    rfl
  · show ((ranTasks [] : List (Task σ)) : Multiset (Task σ)) = _
    simp only [Sys.init, hheld Loop.unsignalled rfl]
    rfl
  · intro g
    simp [Sys.init, signalledTasks, countGroup]

theorem count_exec {σ : Type} (opts : List (PoolOption σ)) (d : WorkerPool σ)
    (m : σ) (wgs : Nat → Int) (acts : List (Action σ)) (s : Sys σ) (h : New opts = .ok d)
    (hexec : Sys.exec acts (Sys.init d m wgs) = some s) : CountInv m wgs s :=
  (exec_invariant (fun s => LifecycleInv d.nWorkers s ∧ CountInv m wgs s)
    (fun s s1 hs hstep =>
      ⟨lifecycle_step d.nWorkers s s1 hs.1 hstep,
        count_step d.nWorkers m wgs s s1 hs.1 hs.2 hstep⟩)
    acts _ s hexec ⟨lifecycle_init opts d m wgs h, count_init opts d m wgs h⟩).2

/-- C6: a pool made by `New`, memory `m`, and a completion group `g` of size
`N`. In every state, along every schedule of `Run`, `AddTask`, the workers
and `stop`, in which exactly `N` tasks have been added and the counter of `g`
is 0 (so that `wg.Wait()` returns): the tasks whose work unit has run are the
added tasks, each once (a permutation of them), `N` executions in all, every
one of them a task of group `g`; no task is left in the queue; and the memory
is the result of running their work units one after the other from `m`. -/
theorem every_task_runs_exactly_once {σ : Type} (opts : List (PoolOption σ))
    (d : WorkerPool σ) (m : σ) (wgs : Nat → Int) (acts : List (Action σ)) (s : Sys σ)
    (g N : Nat) (hnew : New opts = .ok d)
    (hexec : Sys.exec acts (Sys.init d m wgs) = some s) (hsize : wgs g = N)
    (hadded : (addedTasks s.w.trace).length = N) (hwait : s.w.wgs g = 0) :
    (ranTasks s.w.trace).Perm (addedTasks s.w.trace) ∧
      (ranTasks s.w.trace).length = N ∧
      (∀ t ∈ addedTasks s.w.trace, t.wg = some g) ∧
      s.d.taskBufferedChannel.buf = [] ∧
      runAll (ranTasks s.w.trace) m = some s.w.mem := by
  have hinv := count_exec opts d m wgs acts s hnew hexec
  have hcount : countGroup g (signalledTasks s.w.trace) = N := by
    have := hinv.wgs g
    rw [hwait, hsize] at this
    omega
  have hle : countGroup g (signalledTasks s.w.trace) ≤ (signalledTasks s.w.trace).length :=
    List.countP_le_length _
  have hcard := congrArg Multiset.card hinv.added
  simp only [Multiset.card_add, Multiset.coe_card] at hcard
  have hbuf : s.d.taskBufferedChannel.buf = [] := List.length_eq_zero.mp (by omega)
  have hpend : heldBy Loop.pending s.d.workers = [] := List.length_eq_zero.mp (by omega)
  have huns : heldBy Loop.unsignalled s.d.workers = [] := List.length_eq_zero.mp (by omega)
  have hadd := hinv.added
  have hran := hinv.ran
  rw [hbuf, hpend, huns] at hadd
  rw [huns] at hran
  simp only [Multiset.coe_nil, zero_add] at hadd hran
  have hperm : (ranTasks s.w.trace).Perm (addedTasks s.w.trace) :=
    Multiset.coe_eq_coe.mp (hran.trans hadd.symm)
  have hsig : (addedTasks s.w.trace).Perm (signalledTasks s.w.trace) :=
    Multiset.coe_eq_coe.mp hadd
  have hall : ∀ t ∈ signalledTasks s.w.trace, decide (t.wg = some g) = true :=
    List.countP_eq_length.mp (by unfold countGroup at hcount hle; omega)
  refine ⟨hperm, by rw [hperm.length_eq, hadded], ?_, hbuf, hinv.mem⟩
  intro t ht
  exact of_decide_eq_true (hall t (hsig.mem_iff.mp ht))

/-- Scenarios A and B: two tasks each adding 5, a completion group of size 2,
one worker and then two workers running them side by side: once the counter
is 0 both tasks have run and the accumulator is 10. -/
theorem every_task_runs_exactly_once_witness :
    (Sys.after oneWorkerSchedule (sysOf 1 10 2)).w.wgs 0 = 0 ∧
    (Sys.after oneWorkerSchedule (sysOf 1 10 2)).w.mem = 10 ∧
    (Sys.after twoWorkerSchedule (sysOf 2 10 2)).w.wgs 0 = 0 ∧
    (Sys.after twoWorkerSchedule (sysOf 2 10 2)).w.mem = 10 ∧
    (ranTasks (Sys.after twoWorkerSchedule (sysOf 2 10 2)).w.trace).Perm
      (addedTasks (Sys.after twoWorkerSchedule (sysOf 2 10 2)).w.trace) ∧
    (ranTasks (Sys.after twoWorkerSchedule (sysOf 2 10 2)).w.trace).length = 2 :=
  ⟨rfl, rfl, rfl, rfl,
    (every_task_runs_exactly_once [WithNumWorkers 2, WithBufferSize 10] (poolOf 2 10) 0
      (fun _ => 2) twoWorkerSchedule (Sys.after twoWorkerSchedule (sysOf 2 10 2)) 0 2
      rfl rfl rfl rfl rfl).1,
    (every_task_runs_exactly_once [WithNumWorkers 2, WithBufferSize 10] (poolOf 2 10) 0
      (fun _ => 2) twoWorkerSchedule (Sys.after twoWorkerSchedule (sysOf 2 10 2)) 0 2
      rfl rfl rfl rfl rfl).2.1⟩

/-! ## The task queue: when `AddTask` completes -/

theorem addedTasks_snoc {σ : Type} (tr : List (Event σ)) (e : Event σ)
    (h : Event.isAdded e = false) : addedTasks (tr ++ [e]) = addedTasks tr := by
  cases e <;> simp_all [addedTasks, Event.isAdded]

/-- A step leaves the list of added tasks as it was, or is a send into the
buffer, or is the hand-over of a task on an unbuffered channel to a worker
waiting at its `select`. -/
theorem step_added_cases {σ : Type} (s s1 : Sys σ) (h : Step s s1) :
    addedTasks s1.w.trace = addedTasks s.w.trace ∨
    (∃ t d1, s.d.AddTask t = some d1) ∨
    (∃ t i, s.d.taskBufferedChannel.cap = 0 ∧ s.d.loopAt i = some .select ∧
      s1.d = s.d.setLoop i (.doWork t) ∧
      s1.w.trace = s.w.trace ++ [Event.added t, Event.received t]) := by
  cases h with
  | run d1 hc hp hr => exact Or.inl rfl
  | crash p hc => exact Or.inl rfl
  | addTask t d1 hc ha => exact Or.inr (Or.inl ⟨t, d1, ha⟩)
  | handoff t i hc hcap hl =>
    refine Or.inr (Or.inr ⟨t, i, hcap, hl, rfl, ?_⟩)
    show (s.w.trace ++ [Event.added t]) ++ [Event.received t] = _
    simp
  | recv i t ch hc hl hr => exact Or.inl (addedTasks_snoc s.w.trace (Event.received t) rfl)
  | doWork i t w1 hc hl hw =>
    obtain ⟨m, _, hw1⟩ := runWork_some t s.w w1 hw
    subst hw1
    exact Or.inl (addedTasks_snoc s.w.trace (Event.ran t) rfl)
  | wgDone i t w1 hc hl hw =>
    obtain ⟨g, _, hw1⟩ := signal_ok t s.w w1 hw
    subst hw1
    exact Or.inl (addedTasks_snoc s.w.trace (Event.signalled t) rfl)
  | stop hc hp => exact Or.inl rfl
  | quit i hc hp hi hl => exact Or.inl rfl
  | deadline i hc hp hi => exact Or.inl rfl

/-- C5, as stated, fails for an unbuffered queue. `New(WithNumWorkers(1),
WithBufferSize(0))` then `Run`: the queue has capacity 0 and holds 0 tasks
(`k = c`), nothing has ever been received from it, and the worker waits at
its `select`. `AddTask` of a task then completes at once, by hand-over to
the worker: the task counts as added, the queue still has capacity 0 and
holds nothing, and no slot was freed. So it is not true that, when `k = c`,
no step completes an `AddTask`. -/
theorem AddTask_unbuffered_completes_by_handover :
    (Sys.after [.Run] (sysOf 1 0 1)).d.taskBufferedChannel.cap = 0 ∧
    (Sys.after [.Run] (sysOf 1 0 1)).d.taskBufferedChannel.buf.length = 0 ∧
    (Sys.after [.Run] (sysOf 1 0 1)).d.loopAt 0 = some .select ∧
    addedTasks (Sys.after [.Run] (sysOf 1 0 1)).w.trace = [] ∧
    receivedTasks (Sys.after [.Run] (sysOf 1 0 1)).w.trace = [] ∧
    (∃ s1, (Sys.after [.Run] (sysOf 1 0 1)).step (.handoff add5 0) = some s1 ∧
      addedTasks s1.w.trace = [add5] ∧
      s1.d.taskBufferedChannel.buf = [] ∧ s1.d.taskBufferedChannel.cap = 0 ∧
      s1.d.loopAt 0 = some (.doWork add5)) ∧
    ¬ ∀ (acts : List (Action Int)) (s s1 : Sys Int) (a : Action Int),
        Sys.exec acts (sysOf 1 0 1) = some s →
        s.d.taskBufferedChannel.buf.length = s.d.taskBufferedChannel.cap →
        s.step a = some s1 → addedTasks s1.w.trace = addedTasks s.w.trace := by
  refine ⟨rfl, rfl, rfl, rfl, rfl,
    ⟨Sys.after [.handoff add5 0] (Sys.after [.Run] (sysOf 1 0 1)), rfl, rfl, rfl, rfl, rfl⟩, ?_⟩
  intro h
  have h1 := h [.Run] (Sys.after [.Run] (sysOf 1 0 1))
    (Sys.after [.handoff add5 0] (Sys.after [.Run] (sysOf 1 0 1))) (.handoff add5 0)
    rfl rfl rfl
  have h2 := congrArg List.length h1
  have h3 : (addedTasks (Sys.after [.handoff add5 0]
      (Sys.after [.Run] (sysOf 1 0 1))).w.trace).length = 1 := rfl
  have h4 : (addedTasks (Sys.after [.Run] (sysOf 1 0 1)).w.trace).length = 0 := rfl
  omega

/-- C5, amended: a pool whose queue has capacity `c` and holds `k` tasks.
If `k < c`, `AddTask t` returns, the queue then holds the earlier tasks in
their order followed by `t`, `k + 1` in all, and nothing else of the pool
changes. If `k = c`, the send into the queue is not accepted and nothing is
enqueued. If `k = c` and `c ≥ 1`, no step of the program completes an
`AddTask` while the queue is full, and once a receive has freed a slot
`AddTask t` completes with `t` at the tail. If `c = 0` (and so `k = 0`),
`AddTask t` completes by hand-over to any worker waiting at its `select`,
which takes `t` directly while the queue stays empty, and that is the only
way an `AddTask` completes. -/
theorem AddTask_fifo_or_blocks {σ : Type} (d : WorkerPool σ) (t : Task σ) :
    (d.taskBufferedChannel.buf.length < d.taskBufferedChannel.cap →
      ∃ d1, d.AddTask t = some d1 ∧
        d1.taskBufferedChannel.buf = d.taskBufferedChannel.buf ++ [t] ∧
        d1.taskBufferedChannel.buf.length = d.taskBufferedChannel.buf.length + 1 ∧
        d1.taskBufferedChannel.cap = d.taskBufferedChannel.cap ∧
        d1.workers = d.workers ∧ d1.nWorkers = d.nWorkers) ∧
    (d.taskBufferedChannel.buf.length = d.taskBufferedChannel.cap →
      d.AddTask t = none ∧ d.taskBufferedChannel.send t = none ∧
      (∀ s : Sys σ, s.d = d → s.step (.AddTask t) = none)) ∧
    (d.taskBufferedChannel.buf.length = d.taskBufferedChannel.cap →
      0 < d.taskBufferedChannel.cap →
      (∀ (s s1 : Sys σ) (a : Action σ), s.d = d → s.step a = some s1 →
        addedTasks s1.w.trace = addedTasks s.w.trace) ∧
      (∃ t1 ch, d.taskBufferedChannel.recv = some (t1, ch) ∧
        ∃ d1, ({ d with taskBufferedChannel := ch } : WorkerPool σ).AddTask t = some d1 ∧
          d1.taskBufferedChannel.buf = ch.buf ++ [t])) ∧
    (d.taskBufferedChannel.buf.length = d.taskBufferedChannel.cap →
      d.taskBufferedChannel.cap = 0 →
      (∀ (s : Sys σ) (i : Nat), s.d = d → s.crashed = none → d.loopAt i = some .select →
        ∃ s1, s.step (.handoff t i) = some s1 ∧ s1.d.taskBufferedChannel.buf = [] ∧
          addedTasks s1.w.trace = addedTasks s.w.trace ++ [t] ∧
          s1.d.loopAt i = some (.doWork t)) ∧
      (∀ (s s1 : Sys σ) (a : Action σ), s.d = d → s.step a = some s1 →
        addedTasks s1.w.trace ≠ addedTasks s.w.trace →
        ∃ t1 i, d.loopAt i = some .select ∧ s1.d = d.setLoop i (.doWork t1) ∧
          s1.w.trace = s.w.trace ++ [Event.added t1, Event.received t1])) := by
  refine ⟨?_, ?_, ?_, ?_⟩
  · intro h
    refine ⟨{ d with taskBufferedChannel :=
                { d.taskBufferedChannel with buf := d.taskBufferedChannel.buf ++ [t] } },
            ?_, rfl, ?_, rfl, rfl, rfl⟩
    · simp only [WorkerPool.AddTask, Chan.send, if_pos h]
    · simp
  · intro h
    have hn : ¬ d.taskBufferedChannel.buf.length < d.taskBufferedChannel.cap := by omega
    have hadd : d.AddTask t = none := by
      simp only [WorkerPool.AddTask, Chan.send, if_neg hn]
    refine ⟨hadd, by simp only [Chan.send, if_neg hn], ?_⟩
    intro s hs
    subst hs
    unfold Sys.step
    split
    · rfl
    · simp only [hadd]
  · intro h hpos
    constructor
    · intro s s1 a hs hstep
      subst hs
      rcases step_added_cases s s1 (step_sound s s1 a hstep) with h1 | ⟨t1, d1, ha⟩ | ⟨t1, i, hcap, _⟩
      · exact h1
      · have := (AddTask_some s.d d1 t1 ha).1
        omega
      · omega
    · cases hb : d.taskBufferedChannel.buf with
      | nil =>
        rw [hb] at h
        simp only [List.length_nil] at h
        omega
      | cons t1 rest =>
        rw [hb] at h
        simp only [List.length_cons] at h
        have hlt : rest.length < d.taskBufferedChannel.cap := by omega
        refine ⟨t1, { d.taskBufferedChannel with buf := rest }, ?_,
          { d with taskBufferedChannel :=
              { d.taskBufferedChannel with buf := rest ++ [t] } }, ?_, rfl⟩
        · simp only [Chan.recv, hb]
        · simp only [WorkerPool.AddTask, Chan.send, if_pos hlt]
  · intro h hzero
    have hnil : d.taskBufferedChannel.buf = [] := List.length_eq_zero.mp (by omega)
    constructor
    · intro s i hs hc hl
      subst hs
      refine ⟨{ s with d := s.d.setLoop i (.doWork t),
                       w := (s.w.log (.added t)).log (.received t) }, ?_, hnil, ?_, ?_⟩
      · simp only [Sys.step, hc, Option.isSome_none, Bool.false_eq_true, if_false, hzero,
          if_true, hl]
      · show addedTasks ((s.w.trace ++ [Event.added t]) ++ [Event.received t]) = _
        simp [addedTasks]
      · show (s.d.setLoop i (.doWork t)).loopAt i = some (.doWork t)
        rw [loopAt_setLoop, if_pos rfl, hl]
        rfl
    · intro s s1 a hs hstep hne
      subst hs
      rcases step_added_cases s s1 (step_sound s s1 a hstep) with h1 | ⟨t1, d1, ha⟩ | ⟨t1, i, _, hl, hd, htr⟩
      · exact absurd h1 hne
      · have := (AddTask_some s.d d1 t1 ha).1
        omega
      · exact ⟨t1, i, hl, hd, htr⟩

/-- Test `test_add_task full buffer`: with capacity 1 the first `AddTask` is
queued and a second send is not accepted. Scenario C: with capacity 0 and
one worker waiting at its `select`, `AddTask` completes by hand-over. -/
theorem AddTask_fifo_or_blocks_witness :
    (∃ d1, (poolOf 5 1).AddTask add5nil = some d1 ∧
      d1.taskBufferedChannel.buf = [add5nil] ∧
      d1.taskBufferedChannel.buf.length = d1.taskBufferedChannel.cap ∧
      d1.AddTask add5nil = none) ∧
    (∃ s1, (Sys.after [.Run] (sysOf 1 0 1)).step (.handoff add5 0) = some s1 ∧
      s1.d.taskBufferedChannel.buf = [] ∧
      addedTasks s1.w.trace = addedTasks (Sys.after [.Run] (sysOf 1 0 1)).w.trace ++ [add5] ∧
      s1.d.loopAt 0 = some (.doWork add5)) := by
  constructor
  · obtain ⟨d1, h1, h2, h3, h4, _⟩ := (AddTask_fifo_or_blocks (poolOf 5 1) add5nil).1 (by decide)
    have hlen : d1.taskBufferedChannel.buf.length = d1.taskBufferedChannel.cap := by
      rw [h3, h4]; rfl
    exact ⟨d1, h1, h2, hlen, ((AddTask_fifo_or_blocks d1 add5nil).2.1 hlen).1⟩
  · exact ((AddTask_fifo_or_blocks (Sys.after [.Run] (sysOf 1 0 1)).d add5).2.2.2 rfl rfl).1
      (Sys.after [.Run] (sysOf 1 0 1)) 0 rfl rfl rfl

end Wpool
